import Mathlib

/-!
Verification of the Zirco compiler middle-end (the zrc repository).

This file gives a shallow embedding of the statement type-checker with
return-path analysis (src/compiler/zrc_typeck/src/typeck/block.rs) and of
the place / statement code generators
(src/compiler/zrc_codegen/src/expr/place.rs, src/compiler/zrc_codegen/src/stmt.rs,
src/compiler/zrc_codegen/src/stmt/loops.rs), together with theorems about
the behaviour of those functions.

Parts of the repository that the sampled sources only reference
(the type algebra, the expression type-checker, the cfa / branch / loops /
switch helper modules of the type-checker, and the expression code
generator) are modelled from the specification document; every such
definition carries a doc comment starting with the words
"Modelled from the spec".
-/

namespace Zrc

/-! ## Spans and diagnostics -/

/-- A half-open byte range [start, stop) in a named file, mirroring
zrc_utils::span::Span. -/
structure Span where
  start : Nat
  stop : Nat
  file : String
deriving DecidableEq

/-- Mirror of Span::from_positions_and_file. -/
def Span.from_positions_and_file (start stop : Nat) (file : String) : Span :=
  ⟨start, stop, file⟩

/-- A value paired with the span it came from, mirroring zrc_utils::span::Spanned. -/
structure Spanned (α : Type) where
  value : α
  span : Span
deriving DecidableEq

/-- Diagnostic severity, mirroring zrc_diagnostics::Severity. -/
inductive Severity where
  | error
  | warning
deriving DecidableEq

/-- The diagnostic kinds used by the statement type-checker, a subset of
zrc_diagnostics::DiagnosticKind (the full enum is listed in section 7 of the
specification). -/
inductive DiagnosticKind where
  | identifierNotFound (name : String)
  | expectedGot (expected : String) (got : String)
  | cannotUseBreakOutsideOfLoop
  | cannotUseContinueOutsideOfLoop
  | cannotReturnHere
  | expectedABlockToReturn
  | duplicateDeclaration (name : String)
  | invalidCast (msg : String)
deriving DecidableEq

/-- A severity together with a spanned kind, mirroring zrc_diagnostics::Diagnostic. -/
structure Diagnostic where
  severity : Severity
  kind : Spanned DiagnosticKind
deriving DecidableEq

/-- Mirror of DiagnosticKind::error_in: wrap a kind at a span as an error. -/
def DiagnosticKind.error_in (k : DiagnosticKind) (sp : Span) : Diagnostic :=
  ⟨Severity.error, ⟨k, sp⟩⟩

/-- The outcome of a failing type-checker path. Rust distinguishes returning
Err(Diagnostic) from panicking; the internalError constructor models a panic
(the panic message is carried verbatim). -/
inductive TypeckError where
  | diag (d : Diagnostic)
  | internalError (msg : String)
deriving DecidableEq

/-! ## The type algebra

Modelled from the spec: zrc_typeck::tast::ty::Type is not among the sampled
sources; section 3 of the specification lists the type constructors
(Unit, Bool, the ten integer types, Pointer, Struct, Union, Fn).
Field lists and parameter lists are given as their own inductives so that
structural equality is derivable. -/

mutual
/-- Modelled from the spec: the Zirco type algebra (spec section 3). -/
inductive Ty where
  | unit
  | bool
  | i8
  | i16
  | i32
  | i64
  | u8
  | u16
  | u32
  | u64
  | usize
  | isize
  | pointer (pointee : Ty)
  | structTy (fields : FieldList)
  | unionTy (fields : FieldList)
  | fn (params : TyList) (ret : Ty) (variadic : Bool)
deriving DecidableEq

/-- Modelled from the spec: an ordered sequence of named fields
(declaration order defines layout order). -/
inductive FieldList where
  | nil
  | cons (name : String) (ty : Ty) (rest : FieldList)
deriving DecidableEq

/-- Modelled from the spec: an ordered sequence of parameter types. -/
inductive TyList where
  | nil
  | cons (ty : Ty) (rest : TyList)
deriving DecidableEq
end

/-- Position of a field name in a field list, mirroring the
contents.iter().position(..) call in cg_place. -/
def FieldList.idxOf? : FieldList → String → Option Nat
  | .nil, _ => none
  | .cons name _ rest, key =>
    if name = key then some 0
    else (rest.idxOf? key).map (· + 1)

/-- Signedness and bit width of the fixed-width integer types. The
pointer-sized integers usize and isize have a target-dependent width, so they
are given no entry and participate in implicit coercion only via equality. -/
def Ty.int_info : Ty → Option (Bool × Nat)
  | .i8 => some (true, 8)
  | .i16 => some (true, 16)
  | .i32 => some (true, 32)
  | .i64 => some (true, 64)
  | .u8 => some (false, 8)
  | .u16 => some (false, 16)
  | .u32 => some (false, 32)
  | .u64 => some (false, 64)
  | _ => none

/-- True for the ten integer types of the spec. -/
def Ty.is_integer : Ty → Bool
  | .i8 | .i16 | .i32 | .i64 | .u8 | .u16 | .u32 | .u64 | .usize | .isize => true
  | _ => false

/-- Modelled from the spec: Type::can_implicitly_cast_to (spec section 4.1):
true iff the types are structurally equal, or both are fixed-width integers of
identical signedness with target width at least the source width. -/
def Ty.can_implicitly_cast_to (src target : Ty) : Bool :=
  if src = target then true
  else
    match src.int_info, target.int_info with
    | some (s1, w1), some (s2, w2) => s1 = s2 && w1 ≤ w2
    | _, _ => false

mutual
/-- Modelled from the spec: Type::to_string, the canonical source-form
spelling used inside diagnostics (spec section 4.1). Exact spellings of the
aggregate forms are not given by the spec; a simple unambiguous rendering is
used. -/
def Ty.render : Ty → String
  | .unit => "unit"
  | .bool => "bool"
  | .i8 => "i8"
  | .i16 => "i16"
  | .i32 => "i32"
  | .i64 => "i64"
  | .u8 => "u8"
  | .u16 => "u16"
  | .u32 => "u32"
  | .u64 => "u64"
  | .usize => "usize"
  | .isize => "isize"
  | .pointer pointee => "*" ++ pointee.render
  | .structTy fields => "struct(" ++ fields.render ++ ")"
  | .unionTy fields => "union(" ++ fields.render ++ ")"
  | .fn params ret variadic =>
    "fn(" ++ params.render ++ (if variadic then ", ..." else "") ++ ") -> " ++ ret.render

/-- Rendering of a field list. -/
def FieldList.render : FieldList → String
  | .nil => ""
  | .cons name ty rest => name ++ ": " ++ ty.render ++ ", " ++ rest.render

/-- Rendering of a parameter type list. -/
def TyList.render : TyList → String
  | .nil => ""
  | .cons ty rest => ty.render ++ ", " ++ rest.render
end

/-! ## Scopes -/

/-- Modelled from the spec: the value-binding part of zrc_typeck::typeck::Scope,
a lexically scoped map from identifier to declared type. Entry to a block
clones the scope; the functional list representation makes the clone implicit
(spec section 3, Scope). -/
def Scope : Type := List (String × Ty)

/-- Look up an identifier in a scope (innermost binding first). -/
def Scope.get : Scope → String → Option Ty
  | [], _ => none
  | (n, t) :: rest, x => if n = x then some t else Scope.get rest x

/-- Insert a binding into a scope. -/
def Scope.insert (s : Scope) (x : String) (t : Ty) : Scope :=
  (x, t) :: s

/-! ## The typed AST (TAST)

Modelled from the spec: zrc_typeck::tast is not among the sampled sources;
spec section 3 gives TypedExpr / Place with their kind partition
(PlaceKind is Variable, Deref, Index or Dot) and the cg functions in the
sampled sources exhibit the statement kinds and their field shapes. -/

mutual
/-- Modelled from the spec: a typed expression: an inferred type paired with a
spanned kind (spec section 3, TAST). The kinds are the subset of Zirco
expression forms needed by the sampled sources: literals, place reads,
arithmetic, calls, address-of and casts. The assignment form is omitted
because the spec does not define the result value of an assignment
expression. -/
inductive TypedExpr where
  | mk (inferred_type : Ty) (kind : Spanned TypedExprKind)

/-- Modelled from the spec: kinds of typed expressions. -/
inductive TypedExprKind where
  | intLit (n : Int)
  | boolLit (b : Bool)
  | placeValue (pl : Place)
  | binary (op : String) (lhs rhs : TypedExpr)
  | call (callee : String) (args : List TypedExpr)
  | addressOf (pl : Place)
  | cast (inner : TypedExpr) (target : Ty)

/-- Modelled from the spec: an l-value: an inferred type paired with a spanned
place kind (spec section 3, TAST). -/
inductive Place where
  | mk (inferred_type : Ty) (kind : Spanned PlaceKind)

/-- Modelled from the spec: PlaceKind is Variable, Deref, Index or Dot
(spec section 3). -/
inductive PlaceKind where
  | var (x : String)
  | deref (e : TypedExpr)
  | index (ptr : TypedExpr) (idx : TypedExpr)
  | dot (pl : Place) (prop : Spanned String)
end

/-- The inferred type of a typed expression. -/
def TypedExpr.inferred_type : TypedExpr → Ty
  | .mk t _ => t

/-- The spanned kind of a typed expression. -/
def TypedExpr.kind : TypedExpr → Spanned TypedExprKind
  | .mk _ k => k

/-- The inferred type of a place. -/
def Place.inferred_type : Place → Ty
  | .mk t _ => t

/-- The spanned kind of a place. -/
def Place.kind : Place → Spanned PlaceKind
  | .mk _ k => k

/-- A typed let declaration as it appears in the TAST
(zrc_typeck::tast::stmt::LetDeclaration): resolved name, resolved type and
optionally the (coerced) initializer. -/
structure TypedLetDeclaration where
  name : String
  ty : Ty
  value : Option TypedExpr

mutual
/-- A typed statement: mirror of zrc_typeck::tast::stmt::TypedStmt, a spanned
TypedStmtKind. -/
inductive TypedStmt where
  | mk (kind : Spanned TypedStmtKind)

/-- Mirror of zrc_typeck::tast::stmt::TypedStmtKind; the variants and field
shapes are exactly those consumed by cg_block in
src/compiler/zrc_codegen/src/stmt.rs (there is no empty-statement variant:
type_block filters empty statements out). -/
inductive TypedStmtKind where
  | breakStmt
  | continueStmt
  | unreachableStmt
  | declarationList (decls : List (Spanned TypedLetDeclaration))
  | ifStmt (cond : TypedExpr) (thenB : Spanned (List TypedStmt))
      (elseB : Option (Spanned (List TypedStmt)))
  | whileStmt (cond : TypedExpr) (body : Spanned (List TypedStmt))
  | doWhileStmt (body : Spanned (List TypedStmt)) (cond : TypedExpr)
  | forStmt (init : Option (List (Spanned TypedLetDeclaration)))
      (cond : Option TypedExpr) (post : Option TypedExpr)
      (body : Spanned (List TypedStmt))
  | switchCase (scrutinee : TypedExpr) (defaultB : Option (List TypedStmt))
      (cases : List (TypedExpr × List TypedStmt))
  | blockStmt (body : List TypedStmt)
  | exprStmt (e : TypedExpr)
  | returnStmt (value : Option TypedExpr)
end

/-- The spanned kind of a typed statement. -/
def TypedStmt.kind : TypedStmt → Spanned TypedStmtKind
  | .mk k => k

/-! ## The AST -/

/-- Modelled from the spec: the subset of Zirco AST expressions needed to
drive the statement type-checker: integer literals, boolean literals and
identifiers, each carrying its span (spec section 3, AST). -/
inductive Expr where
  | intLit (n : Int) (sp : Span)
  | boolLit (b : Bool) (sp : Span)
  | ident (x : String) (sp : Span)

/-- Modelled from the spec: an AST let declaration: a name, an optional
declared type and an optional initializer (spec section 4.3,
DeclarationList). The syntactic type name is modelled as an already-resolved
type. -/
structure LetDeclaration where
  name : String
  ty : Option Ty
  value : Option Expr

mutual
/-- An AST statement: a statement kind paired with its span, mirroring
zrc_parser::ast::stmt::Stmt (a spanned StmtKind). -/
inductive Stmt where
  | mk (kind : StmtKind) (sp : Span)

/-- The statement kinds of zrc_parser::ast::stmt::StmtKind as dispatched by
type_block in src/compiler/zrc_typeck/src/typeck/block.rs. The Match
statement is omitted: its typing helper, its patterns and its TAST image are
absent from both the sampled sources and the data model of the spec (the
spec type algebra has no tagged-union type to scrutinise). -/
inductive StmtKind where
  | emptyStmt
  | breakStmt
  | continueStmt
  | unreachableStmt
  | declarationList (decls : Spanned (List (Spanned LetDeclaration)))
  | ifStmt (cond : Expr) (thenS : Stmt) (elseS : Option Stmt)
  | whileStmt (cond : Expr) (body : Stmt)
  | doWhileStmt (body : Stmt) (cond : Expr)
  | forStmt (init : Option (List (Spanned LetDeclaration))) (cond : Option Expr)
      (post : Option Expr) (body : Stmt)
  | switchCase (scrutinee : Expr) (cases : List SwitchArm)
  | blockStmt (body : List Stmt)
  | exprStmt (e : Expr)
  | returnStmt (value : Option Expr)

/-- One arm of a switch statement: an optional label expression (none marks
the default arm) and a body statement. -/
inductive SwitchArm where
  | mk (label : Option Expr) (body : Stmt)
end

/-- The span of an AST statement. -/
def Stmt.span : Stmt → Span
  | .mk _ sp => sp

/-- The label of a switch arm (none marks the default arm). -/
def SwitchArm.label : SwitchArm → Option Expr
  | .mk l _ => l

/-- The body of a switch arm. -/
def SwitchArm.body : SwitchArm → Stmt
  | .mk _ b => b

/-! ## Expression typing and coercion helpers -/

/-- Modelled from the spec: the expression type-checker type_expr, restricted
to the modelled expression forms (spec section 4.2). Integer literals default
to i32, boolean literals have type bool, identifiers carry their scope type
and fail with IdentifierNotFound when absent. -/
def type_expr (scope : Scope) (e : Expr) : Except TypeckError TypedExpr :=
  match e with
  | .intLit n sp => .ok (.mk .i32 ⟨.intLit n, sp⟩)
  | .boolLit b sp => .ok (.mk .bool ⟨.boolLit b, sp⟩)
  | .ident x sp =>
    match scope.get x with
    | some t => .ok (.mk t ⟨.placeValue (.mk t ⟨.var x, sp⟩), sp⟩)
    | none => .error (.diag ((DiagnosticKind.identifierNotFound x).error_in sp))

/-- Modelled from the spec: try_coerce_to (spec section 4.1): the expression
is returned unchanged when its type already equals the target, and is
otherwise wrapped in a synthetic cast node whose inferred type is the target
(callers only invoke this when can_implicitly_cast_to holds). -/
def try_coerce_to (expr : TypedExpr) (target : Ty) : TypedExpr :=
  if expr.inferred_type = target then expr
  else .mk target ⟨.cast expr target, expr.kind.span⟩

/-! ## Return analysis lattice

Modelled from the spec: BlockReturnAbility and BlockReturnActuality live in
the cfa module of the type-checker, which is not among the sampled sources;
spec section 3 (return analysis lattice) gives the three abilities, the three
actualities and demote. -/

/-- Modelled from the spec: whether a block must not, may, or must return. -/
inductive BlockReturnAbility where
  | mustNotReturn
  | mayReturn (t : Ty)
  | mustReturn (t : Ty)
deriving DecidableEq

/-- Modelled from the spec: demote maps MustReturn(T) to MayReturn(T) and
leaves the other abilities unchanged (used when entering a nested block). -/
def BlockReturnAbility.demote : BlockReturnAbility → BlockReturnAbility
  | .mustReturn t => .mayReturn t
  | a => a

/-- Modelled from the spec: whether a block never, sometimes, or always
returns. -/
inductive BlockReturnActuality where
  | neverReturns
  | sometimesReturns
  | alwaysReturns
deriving DecidableEq

/-- The predicate of the might_return test in type_block (block.rs lines 245
to 250): matches SometimesReturns and AlwaysReturns. -/
def might_pred (x : BlockReturnActuality) : Bool :=
  match x with
  | .sometimesReturns | .alwaysReturns => true
  | .neverReturns => false

/-- The predicate of the will_return test in type_block (block.rs lines 251
to 253): matches AlwaysReturns. -/
def will_pred (x : BlockReturnActuality) : Bool :=
  match x with
  | .alwaysReturns => true
  | _ => false

/-- The combination of per-statement actualities into a block actuality:
mirror of block.rs lines 245 to 259 (might_return, will_return and the match
on the pair). -/
def combine_actualities (acts : List BlockReturnActuality) : BlockReturnActuality :=
  let might_return := acts.any might_pred
  let will_return := acts.any will_pred
  match might_return, will_return with
  | _, true => .alwaysReturns
  | true, false => .sometimesReturns
  | false, false => .neverReturns

/-- The reconciliation of the combined actuality with the return ability:
mirror of the match at the end of type_block (block.rs lines 261 to 306),
including the implicit unit-return insertion and the internal-error branch
(the Rust code panics there; the panic is modelled as internalError). -/
def finish_block (input_block_span : Span) (tast_block : List TypedStmt)
    (return_ability : BlockReturnAbility) (return_actuality : BlockReturnActuality) :
    Except TypeckError (List TypedStmt × BlockReturnActuality) :=
  match return_ability, return_actuality with
  | .mustNotReturn, .neverReturns => .ok (tast_block, .neverReturns)
  | .mayReturn _, .neverReturns => .ok (tast_block, .neverReturns)
  | .mayReturn _, .sometimesReturns => .ok (tast_block, .sometimesReturns)
  | .mustReturn _, .alwaysReturns => .ok (tast_block, .alwaysReturns)
  | .mayReturn _, .alwaysReturns => .ok (tast_block, .alwaysReturns)
  | .mustReturn return_ty, .sometimesReturns
  | .mustReturn return_ty, .neverReturns =>
    if return_ty = Ty.unit then
      .ok
        (tast_block ++
          [TypedStmt.mk
            ⟨.returnStmt none,
              Span.from_positions_and_file (input_block_span.stop - 1)
                input_block_span.stop input_block_span.file⟩],
          .alwaysReturns)
    else
      .error (.diag (DiagnosticKind.expectedABlockToReturn.error_in input_block_span))
  | .mustNotReturn, .sometimesReturns
  | .mustNotReturn, .alwaysReturns =>
    .error (.internalError
      "block must not return, but a sub-block may return -- this should have been caught when checking that block")

/-! ## Let declarations -/

/-- Modelled from the spec: the typing of a single let declaration inside
process_let_declaration (spec section 4.3, DeclarationList): the variable
gains its declared or inferred type and the initializer is coerced via
try_coerce_to; a declaration with neither a type nor an initializer is
rejected. -/
def check_let_declaration (scope : Scope) (decl : LetDeclaration) (sp : Span) :
    Except TypeckError (Ty × Option TypedExpr) :=
  match decl.value with
  | some init =>
    match type_expr scope init with
    | .error e => .error e
    | .ok te =>
      let declared := decl.ty.getD te.inferred_type
      if te.inferred_type = declared then .ok (declared, some te)
      else if te.inferred_type.can_implicitly_cast_to declared then
        .ok (declared, some (try_coerce_to te declared))
      else
        .error (.diag
          ((DiagnosticKind.expectedGot declared.render te.inferred_type.render).error_in sp))
  | none =>
    match decl.ty with
    | some t => .ok (t, none)
    | none =>
      .error (.diag
        ((DiagnosticKind.expectedGot "a type or an initializer" "neither").error_in sp))

/-- Modelled from the spec: process_let_declaration (spec section 4.3),
which mutates the local scope by inserting a binding for each declaration,
in order, and produces the TAST declaration list. -/
def process_let_declaration (scope : Scope) :
    List (Spanned LetDeclaration) →
    Except TypeckError (Scope × List (Spanned TypedLetDeclaration))
  | [] => .ok (scope, [])
  | d :: rest =>
    match check_let_declaration scope d.value d.span with
    | .error e => .error e
    | .ok (declared, tvalue) =>
      match process_let_declaration (scope.insert d.value.name declared) rest with
      | .error e => .error e
      | .ok (scope2, tdecls) =>
        .ok (scope2, ⟨⟨d.value.name, declared, tvalue⟩, d.span⟩ :: tdecls)

/-! ## Block desugaring and switch helpers -/

/-- Modelled from the spec: coerce_stmt_into_block (declared in the
block_utils module, which is not among the sampled sources): the small
desugaring by which every statement in branch or loop position becomes an
implicit block (doc comment of type_block). A block statement contributes its
own statements; any other statement becomes a one-statement block. -/
def coerce_stmt_into_block (s : Stmt) : Spanned (List Stmt) :=
  match s with
  | .mk (.blockStmt body) sp => ⟨body, sp⟩
  | .mk k sp => ⟨[.mk k sp], sp⟩

/-- Modelled from the spec: the init phase of a for statement (spec section
4.3, ForStmt): a sub-scope is created for the init declarations. -/
def type_for_init (scope : Scope) (init : Option (List (Spanned LetDeclaration))) :
    Except TypeckError (Scope × Option (List (Spanned TypedLetDeclaration))) :=
  match init with
  | some ds =>
    match process_let_declaration scope ds with
    | .error e => .error e
    | .ok (s2, tds) => .ok (s2, some tds)
  | none => .ok (scope, none)

/-- Modelled from the spec: the condition phase of a for statement: the
condition, when present, must have type bool. -/
def type_for_cond (scope : Scope) (cond : Option Expr) (stmt_span : Span) :
    Except TypeckError (Option TypedExpr) :=
  match cond with
  | some c =>
    match type_expr scope c with
    | .error e => .error e
    | .ok tc =>
      if tc.inferred_type = Ty.bool then .ok (some tc)
      else
        .error (.diag
          ((DiagnosticKind.expectedGot "bool" tc.inferred_type.render).error_in stmt_span))
  | none => .ok none

/-- Modelled from the spec: the post phase of a for statement: the post
expression may have any type. -/
def type_for_post (scope : Scope) (post : Option Expr) :
    Except TypeckError (Option TypedExpr) :=
  match post with
  | some p =>
    match type_expr scope p with
    | .error e => .error e
    | .ok tp => .ok (some tp)
  | none => .ok none

/-- Modelled from the spec: resolution of the optional returned expression in
a ReturnStmt; mirror of the transpose of value.map(type_expr) at block.rs
lines 189 to 190 (an expression typing error propagates before the ability is
examined). -/
def resolve_return_value (scope : Scope) : Option Expr → Except TypeckError (Option TypedExpr)
  | some e =>
    match type_expr scope e with
    | .error err => .error err
    | .ok te => .ok (some te)
  | none => .ok none

/-- Mirror of block_utils::has_duplicates (modelled: the helper is exported by
the block module but its body is not among the sampled sources). -/
def has_duplicates {α : Type} [DecidableEq α] : List α → Bool
  | [] => false
  | x :: rest => rest.contains x || has_duplicates rest

/-- Modelled from the spec: the constant key of a switch case label, used for
the uniqueness check (spec section 4.3: labels must be unique). -/
def label_key : Expr → Option (Int ⊕ Bool)
  | .intLit n _ => some (.inl n)
  | .boolLit b _ => some (.inr b)
  | .ident _ _ => none

/-- Modelled from the spec: checking of one switch case label against the
scrutinee type (spec section 4.3: each case label must be a constant of the
scrutinee type). -/
def switch_label_check (scrut_ty : Ty) (label : Expr) : Except TypeckError TypedExpr :=
  match label with
  | .intLit n sp =>
    if scrut_ty.is_integer then .ok (.mk scrut_ty ⟨.intLit n, sp⟩)
    else
      .error (.diag ((DiagnosticKind.expectedGot scrut_ty.render "an integer literal").error_in sp))
  | .boolLit b sp =>
    if scrut_ty = Ty.bool then .ok (.mk .bool ⟨.boolLit b, sp⟩)
    else
      .error (.diag ((DiagnosticKind.expectedGot scrut_ty.render "a bool literal").error_in sp))
  | .ident _ sp =>
    .error (.diag
      ((DiagnosticKind.expectedGot "a constant label" "a non-constant expression").error_in sp))

/-- Modelled from the spec: the actuality of a switch statement (spec section
4.3, SwitchCase): AlwaysReturns iff every case plus the default always
returns (so a switch without a default can never be AlwaysReturns),
NeverReturns iff all arms never return, else SometimesReturns. -/
def switch_actuality (has_default : Bool) (acts : List BlockReturnActuality) :
    BlockReturnActuality :=
  if has_default &&
      acts.all fun a => match a with | .alwaysReturns => true | _ => false then
    .alwaysReturns
  else if acts.all fun a => match a with | .neverReturns => true | _ => false then
    .neverReturns
  else .sometimesReturns

/-! ## Size lemmas for termination -/

/-- Every span occupies at least one size unit. -/
theorem span_one_le_sizeOf (sp : Span) : 1 ≤ sizeOf sp := by
  cases sp; simp; omega

/-- Every AST expression occupies at least one size unit. -/
theorem expr_one_le_sizeOf (e : Expr) : 1 ≤ sizeOf e := by
  cases e <;> simp <;> omega

/-- Every option occupies at least one size unit. -/
theorem opt_one_le_sizeOf {α : Type} [SizeOf α] (o : Option α) : 1 ≤ sizeOf o := by
  cases o <;> simp

/-- The statements of a coerced block are no larger than the statement plus
the one-element list overhead. -/
theorem coerce_stmt_into_block_sizeOf (s : Stmt) :
    sizeOf (coerce_stmt_into_block s).value ≤ sizeOf s + 2 := by
  match s with
  | .mk k sp => cases k <;> simp [coerce_stmt_into_block] <;> omega

/-! ## The statement type-checker

Mirror of type_block in src/compiler/zrc_typeck/src/typeck/block.rs.
The per-statement dispatch (the closure inside the filter_map) is the
function type_stmt; the fold over the statement list, which threads the
mutable local scope, is type_stmts; the branch, loop and switch helpers
(the branch, loops and switch_match modules, which are not among the sampled
sources) are modelled from spec section 4.3. -/

mutual

/-- Mirror of type_block (block.rs lines 59 to 308): clone the scope, type
each statement, combine the actualities and reconcile the combination with
the return ability. -/
def type_block (parent_scope : Scope) (input_block : Spanned (List Stmt))
    (can_use_break_continue : Bool) (return_ability : BlockReturnAbility) :
    Except TypeckError (List TypedStmt × BlockReturnActuality) :=
  let input_block_span := input_block.span
  match type_stmts parent_scope input_block.value can_use_break_continue return_ability with
  | .error e => .error e
  | .ok (_, pairs) =>
    finish_block input_block_span (pairs.map Prod.fst) return_ability
      (combine_actualities (pairs.map Prod.snd))
termination_by 2 * sizeOf input_block.value + 1

/-- The fold of type_block over the statement list: statements are processed
in source order, the local scope is threaded through (let declarations extend
it), empty statements contribute nothing, and the first error aborts the
whole block. -/
def type_stmts (scope : Scope) (stmts : List Stmt) (can_use_break_continue : Bool)
    (return_ability : BlockReturnAbility) :
    Except TypeckError (Scope × List (TypedStmt × BlockReturnActuality)) :=
  match stmts with
  | [] => .ok (scope, [])
  | stmt :: rest =>
    match type_stmt scope stmt can_use_break_continue return_ability with
    | .error e => .error e
    | .ok (scope1, head) =>
      match type_stmts scope1 rest can_use_break_continue return_ability with
      | .error e => .error e
      | .ok (scope2, tail) =>
        .ok (scope2, match head with | none => tail | some p => p :: tail)
termination_by 2 * sizeOf stmts

/-- The per-statement dispatch of type_block (block.rs lines 73 to 239),
returning the possibly extended scope and the optional typed statement with
its actuality. -/
def type_stmt (scope : Scope) (stmt : Stmt) (can_use_break_continue : Bool)
    (return_ability : BlockReturnAbility) :
    Except TypeckError (Scope × Option (TypedStmt × BlockReturnActuality)) :=
  match stmt with
  | .mk kind stmt_span =>
    match kind with
    | .emptyStmt => .ok (scope, none)
    | .breakStmt =>
      if can_use_break_continue then
        .ok (scope, some (TypedStmt.mk ⟨.breakStmt, stmt_span⟩, .neverReturns))
      else .error (.diag (DiagnosticKind.cannotUseBreakOutsideOfLoop.error_in stmt_span))
    | .continueStmt =>
      if can_use_break_continue then
        .ok (scope, some (TypedStmt.mk ⟨.continueStmt, stmt_span⟩, .neverReturns))
      else .error (.diag (DiagnosticKind.cannotUseContinueOutsideOfLoop.error_in stmt_span))
    | .switchCase scrutinee cases =>
      match type_switch_case scope scrutinee cases return_ability stmt_span with
      | .error e => .error e
      | .ok r => .ok (scope, r)
    | .unreachableStmt =>
      .ok (scope, some (TypedStmt.mk ⟨.unreachableStmt, stmt_span⟩, .alwaysReturns))
    | .declarationList declarations =>
      match process_let_declaration scope declarations.value with
      | .error e => .error e
      | .ok (scope2, tdecls) =>
        .ok (scope2, some (TypedStmt.mk ⟨.declarationList tdecls, stmt_span⟩, .neverReturns))
    | .ifStmt cond thenS elseS =>
      match type_if scope cond thenS elseS can_use_break_continue return_ability stmt_span with
      | .error e => .error e
      | .ok r => .ok (scope, r)
    | .whileStmt cond body =>
      match type_while scope cond body return_ability stmt_span with
      | .error e => .error e
      | .ok r => .ok (scope, r)
    | .doWhileStmt body cond =>
      match type_do_while scope body cond return_ability stmt_span with
      | .error e => .error e
      | .ok r => .ok (scope, r)
    | .forStmt init cond post body =>
      match type_for scope init cond post body return_ability stmt_span with
      | .error e => .error e
      | .ok r => .ok (scope, r)
    | .blockStmt body =>
      match type_block scope ⟨body, stmt_span⟩ can_use_break_continue return_ability.demote with
      | .error e => .error e
      | .ok (typed_body, ra) =>
        .ok (scope, some (TypedStmt.mk ⟨.blockStmt typed_body, stmt_span⟩, ra))
    | .exprStmt e =>
      match type_expr scope e with
      | .error err => .error err
      | .ok te => .ok (scope, some (TypedStmt.mk ⟨.exprStmt te, stmt_span⟩, .neverReturns))
    | .returnStmt value =>
      match resolve_return_value scope value with
      | .error err => .error err
      | .ok resolved_value =>
        let inferred_return_type := (resolved_value.map TypedExpr.inferred_type).getD Ty.unit
        match return_ability with
        | .mustNotReturn => .error (.diag (DiagnosticKind.cannotReturnHere.error_in stmt_span))
        | .mustReturn return_ty
        | .mayReturn return_ty =>
          if inferred_return_type = return_ty then
            .ok (scope,
              some (TypedStmt.mk ⟨.returnStmt resolved_value, stmt_span⟩, .alwaysReturns))
          else if inferred_return_type.can_implicitly_cast_to return_ty then
            .ok (scope,
              some (TypedStmt.mk ⟨.returnStmt (resolved_value.map (try_coerce_to · return_ty)),
                stmt_span⟩, .alwaysReturns))
          else
            .error (.diag
              ((DiagnosticKind.expectedGot return_ty.render inferred_return_type.render).error_in
                stmt_span))
termination_by 2 * sizeOf stmt
decreasing_by
  all_goals simp_wf
  all_goals (try (rename Expr => e9; have h9 := expr_one_le_sizeOf e9))
  all_goals (try (rename Option Expr => oe9; have h8 := opt_one_le_sizeOf oe9))
  all_goals (try (rename Span => p9; have h7 := span_one_le_sizeOf p9))
  all_goals omega

/-- Modelled from the spec: branch::type_if (spec section 4.3, IfStmt): the
condition must be bool, both branches are type-checked as nested blocks under
the demoted ability, an if without else downgrades AlwaysReturns to
SometimesReturns, and an if with else combines the pair of actualities by the
block combination rule. -/
def type_if (scope : Scope) (cond : Expr) (thenS : Stmt) (elseS : Option Stmt)
    (can_use_break_continue : Bool) (return_ability : BlockReturnAbility) (stmt_span : Span) :
    Except TypeckError (Option (TypedStmt × BlockReturnActuality)) :=
  match elseS with
  | none =>
    match type_expr scope cond with
    | .error e => .error e
    | .ok tcond =>
      if tcond.inferred_type = Ty.bool then
        match type_block scope (coerce_stmt_into_block thenS) can_use_break_continue
            return_ability.demote with
        | .error e => .error e
        | .ok (tthen, act_then) =>
          .ok (some (TypedStmt.mk
            ⟨.ifStmt tcond ⟨tthen, (coerce_stmt_into_block thenS).span⟩ none, stmt_span⟩,
            match act_then with
            | .alwaysReturns => .sometimesReturns
            | a => a))
      else
        .error (.diag
          ((DiagnosticKind.expectedGot "bool" tcond.inferred_type.render).error_in stmt_span))
  | some es =>
    match type_expr scope cond with
    | .error e => .error e
    | .ok tcond =>
      if tcond.inferred_type = Ty.bool then
        match type_block scope (coerce_stmt_into_block thenS) can_use_break_continue
            return_ability.demote with
        | .error e => .error e
        | .ok (tthen, act_then) =>
          match type_block scope (coerce_stmt_into_block es) can_use_break_continue
              return_ability.demote with
          | .error e => .error e
          | .ok (telse, act_else) =>
            .ok (some (TypedStmt.mk
              ⟨.ifStmt tcond ⟨tthen, (coerce_stmt_into_block thenS).span⟩
                  (some ⟨telse, (coerce_stmt_into_block es).span⟩),
                stmt_span⟩,
              combine_actualities [act_then, act_else]))
      else
        .error (.diag
          ((DiagnosticKind.expectedGot "bool" tcond.inferred_type.render).error_in stmt_span))
termination_by 2 * sizeOf thenS + 2 * sizeOf elseS + 6
decreasing_by
  all_goals simp_wf
  all_goals (have h9 := coerce_stmt_into_block_sizeOf thenS)
  all_goals (try (rename Stmt => s9; have h8 := coerce_stmt_into_block_sizeOf s9))
  all_goals (try (rename Option Stmt => o9; have h7 := opt_one_le_sizeOf o9))
  all_goals omega

/-- Modelled from the spec: loops::type_while (spec section 4.3, WhileStmt):
the condition must be bool, the body is checked with break and continue
permitted under the demoted ability, and the resulting actuality is
downgraded (AlwaysReturns becomes SometimesReturns) because the loop may run
zero times. -/
def type_while (scope : Scope) (cond : Expr) (body : Stmt)
    (return_ability : BlockReturnAbility) (stmt_span : Span) :
    Except TypeckError (Option (TypedStmt × BlockReturnActuality)) :=
  match type_expr scope cond with
  | .error e => .error e
  | .ok tcond =>
    if tcond.inferred_type = Ty.bool then
      match type_block scope (coerce_stmt_into_block body) true return_ability.demote with
      | .error e => .error e
      | .ok (tbody, act) =>
        .ok (some (TypedStmt.mk
          ⟨.whileStmt tcond ⟨tbody, (coerce_stmt_into_block body).span⟩, stmt_span⟩,
          match act with
          | .alwaysReturns => .sometimesReturns
          | a => a))
    else
      .error (.diag
        ((DiagnosticKind.expectedGot "bool" tcond.inferred_type.render).error_in stmt_span))
termination_by 2 * sizeOf body + 6
decreasing_by
  all_goals simp_wf
  all_goals (try (rename Stmt => s9; have h9 := coerce_stmt_into_block_sizeOf s9))
  all_goals omega

/-- Modelled from the spec: loops::type_do_while (spec section 4.3,
DoWhileStmt): like a while loop, except that the body runs at least once, so
the actuality is passed through unchanged (AlwaysReturns is preserved). -/
def type_do_while (scope : Scope) (body : Stmt) (cond : Expr)
    (return_ability : BlockReturnAbility) (stmt_span : Span) :
    Except TypeckError (Option (TypedStmt × BlockReturnActuality)) :=
  match type_block scope (coerce_stmt_into_block body) true return_ability.demote with
  | .error e => .error e
  | .ok (tbody, act) =>
    match type_expr scope cond with
    | .error e => .error e
    | .ok tcond =>
      if tcond.inferred_type = Ty.bool then
        .ok (some (TypedStmt.mk
          ⟨.doWhileStmt ⟨tbody, (coerce_stmt_into_block body).span⟩ tcond, stmt_span⟩, act))
      else
        .error (.diag
          ((DiagnosticKind.expectedGot "bool" tcond.inferred_type.render).error_in stmt_span))
termination_by 2 * sizeOf body + 6
decreasing_by
  all_goals simp_wf
  all_goals (try (rename Stmt => s9; have h9 := coerce_stmt_into_block_sizeOf s9))
  all_goals omega

/-- Modelled from the spec: loops::type_for (spec section 4.3, ForStmt): a
sub-scope is created for the init declarations, the condition (when present)
must be bool, the post expression may have any type, and the body is treated
like a while body (break and continue permitted, demoted ability, actuality
downgraded). -/
def type_for (scope : Scope) (init : Option (List (Spanned LetDeclaration)))
    (cond : Option Expr) (post : Option Expr) (body : Stmt)
    (return_ability : BlockReturnAbility) (stmt_span : Span) :
    Except TypeckError (Option (TypedStmt × BlockReturnActuality)) :=
  match type_for_init scope init with
  | .error e => .error e
  | .ok (scope2, tinit) =>
    match type_for_cond scope2 cond stmt_span with
    | .error e => .error e
    | .ok tcond =>
      match type_for_post scope2 post with
      | .error e => .error e
      | .ok tpost =>
        match type_block scope2 (coerce_stmt_into_block body) true return_ability.demote with
        | .error e => .error e
        | .ok (tbody, act) =>
          .ok (some (TypedStmt.mk
            ⟨.forStmt tinit tcond tpost ⟨tbody, (coerce_stmt_into_block body).span⟩,
              stmt_span⟩,
            match act with
            | .alwaysReturns => .sometimesReturns
            | a => a))
termination_by 2 * sizeOf body + 6
decreasing_by
  all_goals simp_wf
  all_goals (try (rename Stmt => s9; have h9 := coerce_stmt_into_block_sizeOf s9))
  all_goals omega

/-- Modelled from the spec: switch_match::type_switch_case (spec section 4.3,
SwitchCase): the scrutinee must be an integer or bool, case labels must be
unique constants of the scrutinee type, at most one default arm is permitted,
case bodies are checked as nested blocks (break permitted: a switch is a
break target), and the actuality follows the switch rule. The signature of
type_switch_case in block.rs does not receive can_use_break_continue, so the
arm bodies are checked with it set to true. -/
def type_switch_case (scope : Scope) (scrutinee : Expr) (cases : List SwitchArm)
    (return_ability : BlockReturnAbility) (stmt_span : Span) :
    Except TypeckError (Option (TypedStmt × BlockReturnActuality)) :=
  match type_expr scope scrutinee with
  | .error e => .error e
  | .ok tscrut =>
    if tscrut.inferred_type.is_integer = true ∨ tscrut.inferred_type = Ty.bool then
      if has_duplicates (cases.filterMap fun arm => arm.label.bind label_key) then
        .error (.diag ((DiagnosticKind.duplicateDeclaration "case label").error_in stmt_span))
      else if 1 < (cases.filter fun arm => arm.label.isNone).length then
        .error (.diag ((DiagnosticKind.duplicateDeclaration "default").error_in stmt_span))
      else
        match type_switch_arms scope tscrut.inferred_type cases return_ability with
        | .error e => .error e
        | .ok (defaultB, tcases, acts) =>
          .ok (some (TypedStmt.mk ⟨.switchCase tscrut defaultB tcases, stmt_span⟩,
            switch_actuality defaultB.isSome acts))
    else
      .error (.diag
        ((DiagnosticKind.expectedGot "an integer or bool" tscrut.inferred_type.render).error_in
          stmt_span))
termination_by 2 * sizeOf cases + 1

/-- Modelled from the spec: the fold over switch arms inside
switch_match::type_switch_case: each arm body is type-checked as a nested
block (break permitted, demoted ability); labelled arms are collected in
order and a default arm fills the default slot. -/
def type_switch_arms (scope : Scope) (scrut_ty : Ty) (arms : List SwitchArm)
    (return_ability : BlockReturnAbility) :
    Except TypeckError
      (Option (List TypedStmt) × List (TypedExpr × List TypedStmt) ×
        List BlockReturnActuality) :=
  match arms with
  | [] => .ok (none, [], [])
  | .mk label body :: rest =>
    match type_block scope (coerce_stmt_into_block body) true return_ability.demote with
    | .error e => .error e
    | .ok (tbody, act) =>
      match type_switch_arms scope scrut_ty rest return_ability with
      | .error e => .error e
      | .ok (defaultB, tcases, acts) =>
        match label with
        | none => .ok (some tbody, tcases, act :: acts)
        | some lab =>
          match switch_label_check scrut_ty lab with
          | .error e => .error e
          | .ok tlabel => .ok (defaultB, (tlabel, tbody) :: tcases, act :: acts)
termination_by 2 * sizeOf arms
decreasing_by
  all_goals simp_wf
  all_goals (try (rename Stmt => s9; have h9 := coerce_stmt_into_block_sizeOf s9))
  all_goals (try (rename Option Expr => o9; have h8 := opt_one_le_sizeOf o9))
  all_goals omega

end

/-! ## Lemmas about the actuality combination -/

/-- The will-return predicate of combine_actualities holds exactly on
AlwaysReturns. -/
theorem will_pred_eq (x : BlockReturnActuality) :
    will_pred x = true ↔ x = .alwaysReturns := by
  cases x <;> simp [will_pred]

/-- The might-return predicate of combine_actualities holds exactly on
SometimesReturns and AlwaysReturns. -/
theorem might_pred_eq (x : BlockReturnActuality) :
    might_pred x = true ↔ (x = .sometimesReturns ∨ x = .alwaysReturns) := by
  cases x <;> simp [might_pred]

/-- Characterization of combine_actualities by the two existential tests of
the spec: the result is AlwaysReturns iff some actuality is AlwaysReturns,
SometimesReturns iff some actuality is SometimesReturns or AlwaysReturns but
none is AlwaysReturns, and NeverReturns otherwise. -/
theorem combine_actualities_spec (acts : List BlockReturnActuality) :
    (combine_actualities acts = .alwaysReturns ↔ .alwaysReturns ∈ acts)
    ∧ (combine_actualities acts = .sometimesReturns
        ↔ ((∃ a ∈ acts, a = .sometimesReturns ∨ a = .alwaysReturns)
            ∧ .alwaysReturns ∉ acts))
    ∧ (combine_actualities acts = .neverReturns
        ↔ ∀ a ∈ acts, a ≠ .sometimesReturns ∧ a ≠ .alwaysReturns) := by
  simp only [combine_actualities]
  rcases hw : acts.any will_pred with _ | _ <;>
    rcases hm : acts.any might_pred with _ | _
  · rw [List.any_eq_false] at hw hm
    simp only [will_pred_eq] at hw
    simp only [might_pred_eq] at hm
    refine ⟨⟨?_, ?_⟩, ⟨?_, ?_⟩, ⟨?_, ?_⟩⟩
    · intro h; exact absurd h (by decide)
    · intro hmem; exact absurd rfl (hw _ hmem)
    · intro h; exact absurd h (by decide)
    · rintro ⟨⟨a, ha, hor⟩, _⟩; exact absurd hor (hm a ha)
    · intro _ a ha
      have h1 := hm a ha
      push_neg at h1
      exact h1
    · intro _; rfl
  · rw [List.any_eq_false] at hw
    rw [List.any_eq_true] at hm
    simp only [will_pred_eq] at hw
    obtain ⟨a, ha, hpred⟩ := hm
    rw [might_pred_eq] at hpred
    refine ⟨⟨?_, ?_⟩, ⟨?_, ?_⟩, ⟨?_, ?_⟩⟩
    · intro h; exact absurd h (by decide)
    · intro hmem; exact absurd rfl (hw _ hmem)
    · intro _; exact ⟨⟨a, ha, hpred⟩, fun hmem => absurd rfl (hw _ hmem)⟩
    · intro _; rfl
    · intro h; exact absurd h (by decide)
    · intro hall
      have h2 := hall a ha
      rcases hpred with h1 | h1 <;> rw [h1] at h2 <;> simp at h2
  · -- will_return true but might_return false: impossible
    rw [List.any_eq_true] at hw
    rw [List.any_eq_false] at hm
    obtain ⟨a, ha, hpred⟩ := hw
    rw [will_pred_eq] at hpred
    have h2 := hm a ha
    rw [might_pred_eq] at h2
    exact (h2 (Or.inr hpred)).elim
  · rw [List.any_eq_true] at hw
    obtain ⟨a, ha, hpred⟩ := hw
    rw [will_pred_eq] at hpred
    subst hpred
    refine ⟨⟨?_, ?_⟩, ⟨?_, ?_⟩, ⟨?_, ?_⟩⟩
    · intro _; exact ha
    · intro _; rfl
    · intro h; exact absurd h (by decide)
    · rintro ⟨_, hnot⟩; exact absurd ha hnot
    · intro h; exact absurd h (by decide)
    · intro hall
      have h2 := hall _ ha
      simp at h2

/-! ## Claim theorems: the statement type-checker -/

/-- C1: for every block typed by type_block, the combined actuality of the
block is computed from the per-statement actualities by combine_actualities,
whose value is AlwaysReturns if some statement actuality is AlwaysReturns,
SometimesReturns if some statement actuality is SometimesReturns or
AlwaysReturns but none is AlwaysReturns, and NeverReturns otherwise; the
result of type_block is the reconciliation (finish_block) of that combined
actuality with the return ability. -/
theorem type_block_combines_actualities
    (scope : Scope) (stmts : List Stmt) (sp : Span) (canBC : Bool)
    (ability : BlockReturnAbility) (scope2 : Scope)
    (pairs : List (TypedStmt × BlockReturnActuality))
    (h : type_stmts scope stmts canBC ability = .ok (scope2, pairs)) :
    type_block scope ⟨stmts, sp⟩ canBC ability
      = finish_block sp (pairs.map Prod.fst) ability
          (combine_actualities (pairs.map Prod.snd))
    ∧ (combine_actualities (pairs.map Prod.snd) = .alwaysReturns
        ↔ .alwaysReturns ∈ pairs.map Prod.snd)
    ∧ (combine_actualities (pairs.map Prod.snd) = .sometimesReturns
        ↔ ((∃ a ∈ pairs.map Prod.snd, a = .sometimesReturns ∨ a = .alwaysReturns)
            ∧ .alwaysReturns ∉ pairs.map Prod.snd))
    ∧ (combine_actualities (pairs.map Prod.snd) = .neverReturns
        ↔ ∀ a ∈ pairs.map Prod.snd, a ≠ .sometimesReturns ∧ a ≠ .alwaysReturns) := by
  refine ⟨?_, combine_actualities_spec _⟩
  rw [type_block]
  simp [h, Spanned.span, Spanned.value]

/-- Witness for C1: a block consisting of a single return statement, typed
under MayReturn(unit). -/
theorem type_block_combines_actualities_witness :
    type_block [] ⟨[Stmt.mk (.returnStmt none) ⟨0, 7, "w"⟩], ⟨0, 9, "w"⟩⟩ false (.mayReturn .unit)
      = finish_block ⟨0, 9, "w"⟩
          ([(TypedStmt.mk ⟨.returnStmt none, ⟨0, 7, "w"⟩⟩, BlockReturnActuality.alwaysReturns)].map
            Prod.fst)
          (.mayReturn .unit)
          (combine_actualities
            ([(TypedStmt.mk ⟨.returnStmt none, ⟨0, 7, "w"⟩⟩,
                BlockReturnActuality.alwaysReturns)].map Prod.snd))
    ∧ (combine_actualities
          ([(TypedStmt.mk ⟨.returnStmt none, ⟨0, 7, "w"⟩⟩,
              BlockReturnActuality.alwaysReturns)].map Prod.snd) = .alwaysReturns
        ↔ .alwaysReturns ∈
            ([(TypedStmt.mk ⟨.returnStmt none, ⟨0, 7, "w"⟩⟩,
                BlockReturnActuality.alwaysReturns)].map Prod.snd))
    ∧ (combine_actualities
          ([(TypedStmt.mk ⟨.returnStmt none, ⟨0, 7, "w"⟩⟩,
              BlockReturnActuality.alwaysReturns)].map Prod.snd) = .sometimesReturns
        ↔ ((∃ a ∈
              ([(TypedStmt.mk ⟨.returnStmt none, ⟨0, 7, "w"⟩⟩,
                  BlockReturnActuality.alwaysReturns)].map Prod.snd),
              a = .sometimesReturns ∨ a = .alwaysReturns)
            ∧ .alwaysReturns ∉
                ([(TypedStmt.mk ⟨.returnStmt none, ⟨0, 7, "w"⟩⟩,
                    BlockReturnActuality.alwaysReturns)].map Prod.snd)))
    ∧ (combine_actualities
          ([(TypedStmt.mk ⟨.returnStmt none, ⟨0, 7, "w"⟩⟩,
              BlockReturnActuality.alwaysReturns)].map Prod.snd) = .neverReturns
        ↔ ∀ a ∈
            ([(TypedStmt.mk ⟨.returnStmt none, ⟨0, 7, "w"⟩⟩,
                BlockReturnActuality.alwaysReturns)].map Prod.snd),
            a ≠ .sometimesReturns ∧ a ≠ .alwaysReturns) :=
  type_block_combines_actualities [] [Stmt.mk (.returnStmt none) ⟨0, 7, "w"⟩] ⟨0, 9, "w"⟩
    false (.mayReturn .unit) []
    [(TypedStmt.mk ⟨.returnStmt none, ⟨0, 7, "w"⟩⟩, BlockReturnActuality.alwaysReturns)]
    (by simp [type_stmts, type_stmt, resolve_return_value])

/-- C2: a block typed with ability MustReturn(unit) whose combined actuality
is SometimesReturns or NeverReturns succeeds, appending exactly one implicit
ReturnStmt(None) as the last statement, whose span is the half-open range
from one byte before the block end to the block end in the block file, and
the returned actuality is AlwaysReturns. -/
theorem type_block_appends_implicit_unit_return
    (scope : Scope) (stmts : List Stmt) (sp : Span) (canBC : Bool) (scope2 : Scope)
    (pairs : List (TypedStmt × BlockReturnActuality))
    (h : type_stmts scope stmts canBC (.mustReturn .unit) = .ok (scope2, pairs))
    (hact : combine_actualities (pairs.map Prod.snd) = .sometimesReturns
        ∨ combine_actualities (pairs.map Prod.snd) = .neverReturns) :
    type_block scope ⟨stmts, sp⟩ canBC (.mustReturn .unit)
      = .ok (pairs.map Prod.fst ++
          [TypedStmt.mk ⟨.returnStmt none,
            Span.from_positions_and_file (sp.stop - 1) sp.stop sp.file⟩],
          .alwaysReturns) := by
  rw [type_block]
  simp only [Spanned.span, Spanned.value, h]
  rcases hact with h2 | h2 <;> rw [h2] <;> simp [finish_block]

/-- Witness for C2: the empty block (combined actuality NeverReturns) under
MustReturn(unit) gains an implicit return spanning its final byte. -/
theorem type_block_appends_implicit_unit_return_witness :
    type_block [] ⟨[], ⟨10, 20, "w"⟩⟩ false (.mustReturn .unit)
      = .ok (([] : List (TypedStmt × BlockReturnActuality)).map Prod.fst ++
          [TypedStmt.mk ⟨.returnStmt none,
            Span.from_positions_and_file (20 - 1) 20 "w"⟩],
          .alwaysReturns) :=
  type_block_appends_implicit_unit_return [] [] ⟨10, 20, "w"⟩ false [] []
    (by simp [type_stmts]) (by simp [combine_actualities])

/-- C3: a block typed with ability MustReturn(T) for T not unit either
succeeds with actuality AlwaysReturns (never with SometimesReturns or
NeverReturns), or, whenever its statements type-check but the combined
actuality falls short of AlwaysReturns, fails with the diagnostic
ExpectedABlockToReturn spanning the whole block. -/
theorem type_block_must_return_nonunit
    (scope : Scope) (stmts : List Stmt) (sp : Span) (canBC : Bool) (T : Ty)
    (hT : T ≠ .unit) :
    (∀ tast act, type_block scope ⟨stmts, sp⟩ canBC (.mustReturn T) = .ok (tast, act) →
      act = .alwaysReturns)
    ∧ (∀ scope2 pairs,
        type_stmts scope stmts canBC (.mustReturn T) = .ok (scope2, pairs) →
        combine_actualities (pairs.map Prod.snd) ≠ .alwaysReturns →
        type_block scope ⟨stmts, sp⟩ canBC (.mustReturn T)
          = .error (.diag (DiagnosticKind.expectedABlockToReturn.error_in sp))) := by
  constructor
  · intro tast act hok
    rw [type_block] at hok
    simp only [Spanned.span, Spanned.value] at hok
    cases hts : type_stmts scope stmts canBC (.mustReturn T) with
    | error e => rw [hts] at hok; simp at hok
    | ok p =>
      obtain ⟨sc2, pairs⟩ := p
      rw [hts] at hok
      simp only at hok
      cases hc : combine_actualities (pairs.map Prod.snd) <;>
        rw [hc] at hok <;> simp [finish_block, hT] at hok
      · exact hok.2.symm
  · intro scope2 pairs hts hne
    rw [type_block]
    simp only [Spanned.span, Spanned.value, hts]
    cases hc : combine_actualities (pairs.map Prod.snd) <;> rw [hc] at hne
    · simp [finish_block, hT]
    · simp [finish_block, hT]
    · exact absurd rfl hne

/-- Witness for C3: the empty block under MustReturn(i32) yields the
ExpectedABlockToReturn diagnostic and never succeeds short of
AlwaysReturns. -/
theorem type_block_must_return_nonunit_witness :
    ((∀ tast act, type_block [] ⟨[], ⟨3, 8, "w"⟩⟩ true (.mustReturn .i32) = .ok (tast, act) →
        act = .alwaysReturns)
      ∧ (∀ scope2 pairs,
          type_stmts [] [] true (.mustReturn .i32) = .ok (scope2, pairs) →
          combine_actualities (pairs.map Prod.snd) ≠ .alwaysReturns →
          type_block [] ⟨[], ⟨3, 8, "w"⟩⟩ true (.mustReturn .i32)
            = .error (.diag (DiagnosticKind.expectedABlockToReturn.error_in ⟨3, 8, "w"⟩))))
    ∧ type_block [] ⟨[], ⟨3, 8, "w"⟩⟩ true (.mustReturn .i32)
        = .error (.diag (DiagnosticKind.expectedABlockToReturn.error_in ⟨3, 8, "w"⟩)) :=
  ⟨type_block_must_return_nonunit [] [] ⟨3, 8, "w"⟩ true .i32 (by simp),
   (type_block_must_return_nonunit [] [] ⟨3, 8, "w"⟩ true .i32 (by simp)).2 [] []
     (by simp [type_stmts]) (by simp [combine_actualities])⟩

/-- C5: a break or continue statement is accepted by type_block exactly when
can_use_break_continue holds, with actuality NeverReturns; otherwise it is
rejected with CannotUseBreakOutsideOfLoop or CannotUseContinueOutsideOfLoop
at the statement span. -/
theorem type_stmt_break_continue
    (scope : Scope) (sp : Span) (canBC : Bool) (ability : BlockReturnAbility) :
    (canBC = true →
      type_stmt scope (Stmt.mk .breakStmt sp) canBC ability
        = .ok (scope, some (TypedStmt.mk ⟨.breakStmt, sp⟩, .neverReturns))
      ∧ type_stmt scope (Stmt.mk .continueStmt sp) canBC ability
        = .ok (scope, some (TypedStmt.mk ⟨.continueStmt, sp⟩, .neverReturns)))
    ∧ (canBC = false →
      type_stmt scope (Stmt.mk .breakStmt sp) canBC ability
        = .error (.diag (DiagnosticKind.cannotUseBreakOutsideOfLoop.error_in sp))
      ∧ type_stmt scope (Stmt.mk .continueStmt sp) canBC ability
        = .error (.diag (DiagnosticKind.cannotUseContinueOutsideOfLoop.error_in sp))) := by
  constructor <;> intro h <;> subst h <;> constructor <;> rw [type_stmt] <;> simp

/-- Witness for C5: break and continue at a concrete span, inside and outside
a loop context. -/
theorem type_stmt_break_continue_witness :
    ((true = true →
      type_stmt [] (Stmt.mk .breakStmt ⟨1, 6, "w"⟩) true (.mayReturn .unit)
        = .ok ([], some (TypedStmt.mk ⟨.breakStmt, ⟨1, 6, "w"⟩⟩, .neverReturns))
      ∧ type_stmt [] (Stmt.mk .continueStmt ⟨1, 6, "w"⟩) true (.mayReturn .unit)
        = .ok ([], some (TypedStmt.mk ⟨.continueStmt, ⟨1, 6, "w"⟩⟩, .neverReturns)))
    ∧ (true = false →
      type_stmt [] (Stmt.mk .breakStmt ⟨1, 6, "w"⟩) true (.mayReturn .unit)
        = .error (.diag (DiagnosticKind.cannotUseBreakOutsideOfLoop.error_in ⟨1, 6, "w"⟩))
      ∧ type_stmt [] (Stmt.mk .continueStmt ⟨1, 6, "w"⟩) true (.mayReturn .unit)
        = .error (.diag (DiagnosticKind.cannotUseContinueOutsideOfLoop.error_in ⟨1, 6, "w"⟩))))
    ∧ ((false = true →
      type_stmt [] (Stmt.mk .breakStmt ⟨1, 6, "w"⟩) false (.mayReturn .unit)
        = .ok ([], some (TypedStmt.mk ⟨.breakStmt, ⟨1, 6, "w"⟩⟩, .neverReturns))
      ∧ type_stmt [] (Stmt.mk .continueStmt ⟨1, 6, "w"⟩) false (.mayReturn .unit)
        = .ok ([], some (TypedStmt.mk ⟨.continueStmt, ⟨1, 6, "w"⟩⟩, .neverReturns)))
    ∧ (false = false →
      type_stmt [] (Stmt.mk .breakStmt ⟨1, 6, "w"⟩) false (.mayReturn .unit)
        = .error (.diag (DiagnosticKind.cannotUseBreakOutsideOfLoop.error_in ⟨1, 6, "w"⟩))
      ∧ type_stmt [] (Stmt.mk .continueStmt ⟨1, 6, "w"⟩) false (.mayReturn .unit)
        = .error (.diag (DiagnosticKind.cannotUseContinueOutsideOfLoop.error_in ⟨1, 6, "w"⟩)))) :=
  ⟨type_stmt_break_continue [] ⟨1, 6, "w"⟩ true (.mayReturn .unit),
   type_stmt_break_continue [] ⟨1, 6, "w"⟩ false (.mayReturn .unit)⟩

/-- C4 counterexample: the claim says a ReturnStmt typed under MustNotReturn
always yields CannotReturnHere, but block.rs resolves the returned expression
first (the transpose at lines 189 to 190), so an ill-typed returned
expression yields its own diagnostic instead: here IdentifierNotFound at the
expression span rather than CannotReturnHere at the statement span. -/
theorem type_stmt_return_mustNot_not_always_cannotReturnHere :
    type_stmt [] (Stmt.mk (.returnStmt (some (.ident "y" ⟨2, 3, "w"⟩))) ⟨0, 9, "w"⟩)
        false .mustNotReturn
      = .error (.diag ((DiagnosticKind.identifierNotFound "y").error_in ⟨2, 3, "w"⟩))
    ∧ type_stmt [] (Stmt.mk (.returnStmt (some (.ident "y" ⟨2, 3, "w"⟩))) ⟨0, 9, "w"⟩)
        false .mustNotReturn
      ≠ .error (.diag (DiagnosticKind.cannotReturnHere.error_in ⟨0, 9, "w"⟩)) := by
  constructor
  · simp [type_stmt, resolve_return_value, type_expr, Scope.get]
  · simp [type_stmt, resolve_return_value, type_expr, Scope.get, DiagnosticKind.error_in]

/-- C4 amended: for a ReturnStmt whose returned expression (if any)
type-checks, if the ability is MustNotReturn the result is CannotReturnHere
at the statement span; otherwise, with ability MustReturn(expected) or
MayReturn(expected), the resolved value is kept unchanged when its inferred
type (unit when absent) equals expected, wrapped via try_coerce_to when
can_implicitly_cast_to(expected) holds, and otherwise the diagnostic
ExpectedGot(expected, got) is raised at the statement span; on success the
actuality is AlwaysReturns. -/
theorem type_stmt_return_dispatch
    (scope : Scope) (value : Option Expr) (sp : Span) (canBC : Bool)
    (resolved : Option TypedExpr)
    (h : resolve_return_value scope value = .ok resolved)
    (inferred : Ty)
    (hI : inferred = (resolved.map TypedExpr.inferred_type).getD Ty.unit) :
    (type_stmt scope (Stmt.mk (.returnStmt value) sp) canBC .mustNotReturn
      = .error (.diag (DiagnosticKind.cannotReturnHere.error_in sp)))
    ∧ (∀ expected : Ty,
        (inferred = expected →
          type_stmt scope (Stmt.mk (.returnStmt value) sp) canBC (.mustReturn expected)
            = .ok (scope, some (TypedStmt.mk ⟨.returnStmt resolved, sp⟩, .alwaysReturns))
          ∧ type_stmt scope (Stmt.mk (.returnStmt value) sp) canBC (.mayReturn expected)
            = .ok (scope, some (TypedStmt.mk ⟨.returnStmt resolved, sp⟩, .alwaysReturns)))
        ∧ (inferred ≠ expected → inferred.can_implicitly_cast_to expected = true →
          type_stmt scope (Stmt.mk (.returnStmt value) sp) canBC (.mustReturn expected)
            = .ok (scope, some (TypedStmt.mk
                ⟨.returnStmt (resolved.map (try_coerce_to · expected)), sp⟩, .alwaysReturns))
          ∧ type_stmt scope (Stmt.mk (.returnStmt value) sp) canBC (.mayReturn expected)
            = .ok (scope, some (TypedStmt.mk
                ⟨.returnStmt (resolved.map (try_coerce_to · expected)), sp⟩, .alwaysReturns)))
        ∧ (inferred ≠ expected → inferred.can_implicitly_cast_to expected = false →
          type_stmt scope (Stmt.mk (.returnStmt value) sp) canBC (.mustReturn expected)
            = .error (.diag
                ((DiagnosticKind.expectedGot expected.render inferred.render).error_in sp))
          ∧ type_stmt scope (Stmt.mk (.returnStmt value) sp) canBC (.mayReturn expected)
            = .error (.diag
                ((DiagnosticKind.expectedGot expected.render inferred.render).error_in sp)))) := by
  subst hI
  refine ⟨?_, fun expected => ⟨?_, ?_, ?_⟩⟩
  · rw [type_stmt]; simp [h]
  · intro he
    constructor <;> (rw [type_stmt]; simp [h, he])
  · intro hne hcast
    constructor <;> (rw [type_stmt]; simp [h, hne, hcast])
  · intro hne hcast
    constructor <;> (rw [type_stmt]; simp [h, hne, hcast])

/-- Witness for the amended C4: a well-typed return under MustNotReturn is
rejected with CannotReturnHere. -/
theorem type_stmt_return_dispatch_witness :
    type_stmt [("x", Ty.bool)]
        (Stmt.mk (.returnStmt (some (.ident "x" ⟨1, 2, "w"⟩))) ⟨0, 9, "w"⟩) false .mustNotReturn
      = .error (.diag (DiagnosticKind.cannotReturnHere.error_in ⟨0, 9, "w"⟩)) :=
  (type_stmt_return_dispatch [("x", Ty.bool)] (some (.ident "x" ⟨1, 2, "w"⟩)) ⟨0, 9, "w"⟩ false
    (some (TypedExpr.mk .bool ⟨.placeValue (.mk .bool ⟨.var "x", ⟨1, 2, "w"⟩⟩), ⟨1, 2, "w"⟩⟩))
    (by simp [resolve_return_value, type_expr, Scope.get]) .bool
    (by simp [TypedExpr.inferred_type])).1

/-- C10: type_stmts (the statement fold of type_block) processes every
statement in source order and composes over list append: the typing of the
suffix depends only on the scope produced by the prefix, never on the prefix
actualities (in particular a prefix that always returns does not suppress
type-checking of the suffix), the suffix diagnostics still surface, the
suffix TAST statements are all appended, and no statement is dropped. -/
theorem type_stmts_processes_all_statements
    (scope : Scope) (xs ys : List Stmt) (canBC : Bool) (ability : BlockReturnAbility) :
    type_stmts scope (xs ++ ys) canBC ability
      = match type_stmts scope xs canBC ability with
        | .error e => .error e
        | .ok (scope1, ps1) =>
          match type_stmts scope1 ys canBC ability with
          | .error e => .error e
          | .ok (scope2, ps2) => .ok (scope2, ps1 ++ ps2) := by
  induction xs generalizing scope with
  | nil =>
    rw [show ([] : List Stmt) ++ ys = ys from rfl]
    rw [show type_stmts scope [] canBC ability = .ok (scope, []) from by rw [type_stmts]]
    cases h : type_stmts scope ys canBC ability with
    | error e => simp [h]
    | ok q => obtain ⟨scope2, ps2⟩ := q; simp [h]
  | cons s rest ih =>
    rw [List.cons_append]
    rw [type_stmts]
    conv_rhs => rw [type_stmts]
    cases h1 : type_stmt scope s canBC ability with
    | error e => simp
    | ok p =>
      obtain ⟨scope1, head⟩ := p
      simp only []
      rw [ih scope1]
      cases h2 : type_stmts scope1 rest canBC ability with
      | error e => simp
      | ok q =>
        obtain ⟨scope2, ps1⟩ := q
        simp only []
        cases h3 : type_stmts scope2 ys canBC ability with
        | error e => simp
        | ok r =>
          obtain ⟨scope3, ps2⟩ := r
          cases head <;> simp

/-! ## Unreachable-statement detection (for the amended C9) -/

mutual

/-- True when the statement contains an UnreachableStmt at any nesting
depth. -/
def stmt_has_unreachable : Stmt → Bool
  | .mk k _ =>
    match k with
    | .unreachableStmt => true
    | .ifStmt _ thenS elseS =>
      stmt_has_unreachable thenS ||
        (match elseS with
         | some es => stmt_has_unreachable es
         | none => false)
    | .whileStmt _ body => stmt_has_unreachable body
    | .doWhileStmt body _ => stmt_has_unreachable body
    | .forStmt _ _ _ body => stmt_has_unreachable body
    | .switchCase _ arms => arms_have_unreachable arms
    | .blockStmt body => stmts_have_unreachable body
    | .emptyStmt => false
    | .breakStmt => false
    | .continueStmt => false
    | .declarationList _ => false
    | .exprStmt _ => false
    | .returnStmt _ => false
termination_by s => 2 * sizeOf s
decreasing_by
  all_goals simp_wf
  all_goals omega

/-- True when some statement of the list contains an UnreachableStmt. -/
def stmts_have_unreachable : List Stmt → Bool
  | [] => false
  | s :: rest => stmt_has_unreachable s || stmts_have_unreachable rest
termination_by l => 2 * sizeOf l
decreasing_by
  all_goals simp_wf
  all_goals omega

/-- True when some arm body of the list contains an UnreachableStmt. -/
def arms_have_unreachable : List SwitchArm → Bool
  | [] => false
  | .mk _ body :: rest => stmt_has_unreachable body || arms_have_unreachable rest
termination_by l => 2 * sizeOf l
decreasing_by
  all_goals simp_wf
  all_goals omega

end

/-- Block coercion preserves absence of UnreachableStmt. -/
theorem coerce_no_unreachable (s : Stmt) (h : stmt_has_unreachable s = false) :
    stmts_have_unreachable (coerce_stmt_into_block s).value = false := by
  match s with
  | .mk k sp =>
    cases k <;>
      simp_all [coerce_stmt_into_block, stmt_has_unreachable, stmts_have_unreachable]

/-- The demotion of MustNotReturn is MustNotReturn. -/
@[simp] theorem demote_mustNotReturn :
    BlockReturnAbility.demote .mustNotReturn = .mustNotReturn := rfl

/-- Every list occupies at least one size unit. -/
theorem list_one_le_sizeOf {α : Type} [SizeOf α] (l : List α) : 1 ≤ sizeOf l := by
  cases l <;> simp_arith

/-- The expression type-checker never panics: all its failures are
diagnostics. -/
theorem type_expr_not_internal (scope : Scope) (e : Expr) (msg : String) :
    type_expr scope e ≠ .error (.internalError msg) := by
  cases e with
  | intLit n sp => simp [type_expr]
  | boolLit b sp => simp [type_expr]
  | ident x sp => cases hg : Scope.get scope x <;> simp [type_expr, hg]

/-- Return-value resolution never panics. -/
theorem resolve_return_value_not_internal (scope : Scope) (v : Option Expr) (msg : String) :
    resolve_return_value scope v ≠ .error (.internalError msg) := by
  cases v with
  | none => simp [resolve_return_value]
  | some e =>
    cases h : type_expr scope e with
    | error err =>
      simp only [resolve_return_value, h]
      intro hc
      have he : err = .internalError msg := by simpa using hc
      exact type_expr_not_internal scope e msg (he ▸ h)
    | ok te => simp [resolve_return_value, h]

/-- Checking one let declaration never panics. -/
theorem check_let_declaration_not_internal (scope : Scope) (decl : LetDeclaration)
    (sp : Span) (msg : String) :
    check_let_declaration scope decl sp ≠ .error (.internalError msg) := by
  rw [check_let_declaration]
  cases decl.value with
  | some init =>
    cases h : type_expr scope init with
    | error err =>
      simp only [h]
      intro hc
      have he : err = .internalError msg := by simpa using hc
      exact type_expr_not_internal scope init msg (he ▸ h)
    | ok te =>
      simp only [h]
      split <;> simp
      split <;> simp
  | none => cases decl.ty <;> simp

/-- Processing a let declaration list never panics. -/
theorem process_let_declaration_not_internal (scope : Scope)
    (decls : List (Spanned LetDeclaration)) (msg : String) :
    process_let_declaration scope decls ≠ .error (.internalError msg) := by
  induction decls generalizing scope with
  | nil => simp [process_let_declaration]
  | cons d rest ih =>
    rw [process_let_declaration]
    cases h1 : check_let_declaration scope d.value d.span with
    | error e =>
      simp only []
      intro hc
      have he : e = .internalError msg := by simpa using hc
      exact check_let_declaration_not_internal scope d.value d.span msg (he ▸ h1)
    | ok p =>
      obtain ⟨declared, tvalue⟩ := p
      simp only []
      cases h2 : process_let_declaration (scope.insert d.value.name declared) rest with
      | error e =>
        intro hc
        have he : e = .internalError msg := by simpa using hc
        exact ih (scope.insert d.value.name declared) (he ▸ h2)
      | ok q => obtain ⟨sc2, tds⟩ := q; simp

/-- The for-init phase never panics. -/
theorem type_for_init_not_internal (scope : Scope)
    (init : Option (List (Spanned LetDeclaration))) (msg : String) :
    type_for_init scope init ≠ .error (.internalError msg) := by
  cases init with
  | none => simp [type_for_init]
  | some ds =>
    rw [type_for_init]
    cases h : process_let_declaration scope ds with
    | error e =>
      simp only []
      intro hc
      have he : e = .internalError msg := by simpa using hc
      exact process_let_declaration_not_internal scope ds msg (he ▸ h)
    | ok p => obtain ⟨s2, tds⟩ := p; simp

/-- The for-condition phase never panics. -/
theorem type_for_cond_not_internal (scope : Scope) (cond : Option Expr) (sp : Span)
    (msg : String) :
    type_for_cond scope cond sp ≠ .error (.internalError msg) := by
  cases cond with
  | none => simp [type_for_cond]
  | some c =>
    rw [type_for_cond]
    cases h : type_expr scope c with
    | error e =>
      simp only []
      intro hc
      have he : e = .internalError msg := by simpa using hc
      exact type_expr_not_internal scope c msg (he ▸ h)
    | ok tc =>
      simp only []
      split <;> simp

/-- The for-post phase never panics. -/
theorem type_for_post_not_internal (scope : Scope) (post : Option Expr) (msg : String) :
    type_for_post scope post ≠ .error (.internalError msg) := by
  cases post with
  | none => simp [type_for_post]
  | some p =>
    rw [type_for_post]
    cases h : type_expr scope p with
    | error e =>
      simp only []
      intro hc
      have he : e = .internalError msg := by simpa using hc
      exact type_expr_not_internal scope p msg (he ▸ h)
    | ok tp => simp

/-- Switch label checking never panics. -/
theorem switch_label_check_not_internal (scrut_ty : Ty) (label : Expr) (msg : String) :
    switch_label_check scrut_ty label ≠ .error (.internalError msg) := by
  cases label with
  | intLit n sp => rw [switch_label_check]; split <;> simp
  | boolLit b sp => rw [switch_label_check]; split <;> simp
  | ident x sp => simp [switch_label_check]

/-- A list of pairs whose actualities are all NeverReturns combines to
NeverReturns. -/
theorem combine_of_all_never (prs : List (TypedStmt × BlockReturnActuality))
    (h : ∀ p ∈ prs, p.2 = .neverReturns) :
    combine_actualities (prs.map Prod.snd) = .neverReturns := by
  apply (combine_actualities_spec _).2.2.mpr
  intro a ha
  obtain ⟨p, hp, hpa⟩ := List.mem_map.mp ha
  subst hpa
  rw [h p hp]
  exact ⟨by decide, by decide⟩

/-- When every arm actuality is NeverReturns and a default can only be
present when some arm exists, the switch actuality is NeverReturns. -/
theorem switch_actuality_of_never (d : Bool) (acts : List BlockReturnActuality)
    (h : ∀ a ∈ acts, a = .neverReturns) (hne : d = true → acts ≠ []) :
    switch_actuality d acts = .neverReturns := by
  have hnv : acts.all (fun a => match a with | .neverReturns => true | _ => false) = true := by
    rw [List.all_eq_true]
    intro a ha
    rw [h a ha]
  cases d with
  | false => simp [switch_actuality, hnv]
  | true =>
    cases acts with
    | nil => exact absurd rfl (hne rfl)
    | cons a rest =>
      have ha := h a (by simp)
      subst ha
      simp [switch_actuality, hnv]

/-- The MustNotReturn invariant for a block-typing result: no panic, and on
success the actuality is NeverReturns. -/
def GoodBlockResult (r : Except TypeckError (List TypedStmt × BlockReturnActuality)) : Prop :=
  (∀ msg, r ≠ .error (.internalError msg)) ∧
  (∀ t a, r = .ok (t, a) → a = .neverReturns)

/-- The MustNotReturn invariant for a statement-fold result: no panic, and on
success every produced actuality is NeverReturns. -/
def GoodStmtsResult
    (r : Except TypeckError (Scope × List (TypedStmt × BlockReturnActuality))) : Prop :=
  (∀ msg, r ≠ .error (.internalError msg)) ∧
  (∀ sc prs, r = .ok (sc, prs) → ∀ p ∈ prs, p.2 = .neverReturns)

/-- The MustNotReturn invariant for a single-statement result. -/
def GoodStmtResult
    (r : Except TypeckError (Scope × Option (TypedStmt × BlockReturnActuality))) : Prop :=
  (∀ msg, r ≠ .error (.internalError msg)) ∧
  (∀ sc opt ts a, r = .ok (sc, opt) → opt = some (ts, a) → a = .neverReturns)

/-- The MustNotReturn invariant for a statement-helper result. -/
def GoodOptResult
    (r : Except TypeckError (Option (TypedStmt × BlockReturnActuality))) : Prop :=
  (∀ msg, r ≠ .error (.internalError msg)) ∧
  (∀ opt ts a, r = .ok opt → opt = some (ts, a) → a = .neverReturns)

/-- The MustNotReturn invariant for a switch-arm-fold result: no panic, every
arm actuality NeverReturns, and a default arm implies a nonempty actuality
list. -/
def GoodArmsResult
    (r : Except TypeckError
      (Option (List TypedStmt) × List (TypedExpr × List TypedStmt) ×
        List BlockReturnActuality)) : Prop :=
  (∀ msg, r ≠ .error (.internalError msg)) ∧
  (∀ d cs acts, r = .ok (d, cs, acts) →
    (∀ a ∈ acts, a = .neverReturns) ∧ (d.isSome = true → acts ≠ []))

/-- The MustNotReturn invariant holds for every type-checking function, for
all inputs below a size bound and free of UnreachableStmt, by strong
induction on the bound. -/
theorem typeck_mustNot_invariant (n : Nat) :
    (∀ (scope : Scope) (ib : Spanned (List Stmt)) (canBC : Bool),
      2 * sizeOf ib.value + 1 ≤ n →
      stmts_have_unreachable ib.value = false →
      GoodBlockResult (type_block scope ib canBC .mustNotReturn))
    ∧ (∀ (scope : Scope) (stmts : List Stmt) (canBC : Bool),
        2 * sizeOf stmts ≤ n →
        stmts_have_unreachable stmts = false →
        GoodStmtsResult (type_stmts scope stmts canBC .mustNotReturn))
    ∧ (∀ (scope : Scope) (s : Stmt) (canBC : Bool),
        2 * sizeOf s ≤ n →
        stmt_has_unreachable s = false →
        GoodStmtResult (type_stmt scope s canBC .mustNotReturn))
    ∧ (∀ (scope : Scope) (cond : Expr) (thenS : Stmt) (elseS : Option Stmt)
        (canBC : Bool) (sp : Span),
        2 * sizeOf thenS + 2 * sizeOf elseS + 6 ≤ n →
        stmt_has_unreachable thenS = false →
        (∀ es, elseS = some es → stmt_has_unreachable es = false) →
        GoodOptResult (type_if scope cond thenS elseS canBC .mustNotReturn sp))
    ∧ (∀ (scope : Scope) (cond : Expr) (body : Stmt) (sp : Span),
        2 * sizeOf body + 6 ≤ n →
        stmt_has_unreachable body = false →
        GoodOptResult (type_while scope cond body .mustNotReturn sp))
    ∧ (∀ (scope : Scope) (body : Stmt) (cond : Expr) (sp : Span),
        2 * sizeOf body + 6 ≤ n →
        stmt_has_unreachable body = false →
        GoodOptResult (type_do_while scope body cond .mustNotReturn sp))
    ∧ (∀ (scope : Scope) (init : Option (List (Spanned LetDeclaration)))
        (cond : Option Expr) (post : Option Expr) (body : Stmt) (sp : Span),
        2 * sizeOf body + 6 ≤ n →
        stmt_has_unreachable body = false →
        GoodOptResult (type_for scope init cond post body .mustNotReturn sp))
    ∧ (∀ (scope : Scope) (scrutinee : Expr) (cases : List SwitchArm) (sp : Span),
        2 * sizeOf cases + 1 ≤ n →
        arms_have_unreachable cases = false →
        GoodOptResult (type_switch_case scope scrutinee cases .mustNotReturn sp))
    ∧ (∀ (scope : Scope) (scrut_ty : Ty) (arms : List SwitchArm),
        2 * sizeOf arms ≤ n →
        arms_have_unreachable arms = false →
        GoodArmsResult (type_switch_arms scope scrut_ty arms .mustNotReturn)) := by
  induction n with
  | zero =>
    refine ⟨?_, ?_, ?_, ?_, ?_, ?_, ?_, ?_, ?_⟩ <;> intro scope
    · intro ib canBC hb; exact absurd hb (by omega)
    · intro stmts canBC hb
      have := list_one_le_sizeOf stmts
      exact absurd hb (by omega)
    · intro s canBC hb
      have : 1 ≤ sizeOf s := by cases s; simp_arith
      exact absurd hb (by omega)
    · intro cond thenS elseS canBC sp hb; exact absurd hb (by omega)
    · intro cond body sp hb; exact absurd hb (by omega)
    · intro body cond sp hb; exact absurd hb (by omega)
    · intro init cond post body sp hb; exact absurd hb (by omega)
    · intro scrutinee cases sp hb; exact absurd hb (by omega)
    · intro scrut_ty arms hb
      have := list_one_le_sizeOf arms
      exact absurd hb (by omega)
  | succ n ih =>
    obtain ⟨ih1, ih2, ih3, ih4, ih5, ih6, ih7, ih8, ih9⟩ := ih
    have part2 : ∀ (scope : Scope) (stmts : List Stmt) (canBC : Bool),
        2 * sizeOf stmts ≤ n + 1 →
        stmts_have_unreachable stmts = false →
        GoodStmtsResult (type_stmts scope stmts canBC .mustNotReturn) := by
      intro scope stmts canBC hb hu
      cases stmts with
      | nil =>
        constructor
        · intro msg; rw [type_stmts]; simp
        · intro sc prs hok
          rw [type_stmts] at hok
          simp only [Except.ok.injEq, Prod.mk.injEq] at hok
          obtain ⟨-, hprs⟩ := hok
          intro p hp
          rw [← hprs] at hp
          simp at hp
      | cons s rest =>
        have hu2 : stmt_has_unreachable s = false ∧ stmts_have_unreachable rest = false := by
          rw [stmts_have_unreachable] at hu
          simpa using hu
        have hsz : sizeOf (s :: rest) = 1 + sizeOf s + sizeOf rest := by simp
        have hs := ih3 scope s canBC (by omega) hu2.1
        constructor
        · intro msg hc
          rw [type_stmts] at hc
          cases h1 : type_stmt scope s canBC .mustNotReturn with
          | error e =>
            simp only [h1] at hc
            have he : e = .internalError msg := by simpa using hc
            exact hs.1 msg (he ▸ h1)
          | ok p =>
            obtain ⟨scope1, head⟩ := p
            simp only [h1] at hc
            have hr := ih2 scope1 rest canBC (by omega) hu2.2
            cases h2 : type_stmts scope1 rest canBC .mustNotReturn with
            | error e2 =>
              simp only [h2] at hc
              have he : e2 = .internalError msg := by simpa using hc
              exact hr.1 msg (he ▸ h2)
            | ok q =>
              obtain ⟨scope2, tail⟩ := q
              simp only [h2] at hc
              simp at hc
        · intro sc prs hok
          rw [type_stmts] at hok
          cases h1 : type_stmt scope s canBC .mustNotReturn with
          | error e => rw [h1] at hok; exact absurd hok (by simp)
          | ok p =>
            obtain ⟨scope1, head⟩ := p
            simp only [h1] at hok
            have hr := ih2 scope1 rest canBC (by omega) hu2.2
            cases h2 : type_stmts scope1 rest canBC .mustNotReturn with
            | error e2 => rw [h2] at hok; exact absurd hok (by simp)
            | ok q =>
              obtain ⟨scope2, tail⟩ := q
              simp only [h2] at hok
              simp only [Except.ok.injEq, Prod.mk.injEq] at hok
              obtain ⟨-, hprs⟩ := hok
              intro p hp
              rw [← hprs] at hp
              cases head with
              | none => exact hr.2 scope2 tail h2 p hp
              | some p0 =>
                rcases List.mem_cons.mp hp with hp1 | hp1
                · rw [hp1]
                  exact hs.2 scope1 (some p0) p0.1 p0.2 h1 rfl
                · exact hr.2 scope2 tail h2 p hp1
    have part1 : ∀ (scope : Scope) (ib : Spanned (List Stmt)) (canBC : Bool),
        2 * sizeOf ib.value + 1 ≤ n + 1 →
        stmts_have_unreachable ib.value = false →
        GoodBlockResult (type_block scope ib canBC .mustNotReturn) := by
      intro scope ib canBC hb hu
      have hstmts := part2 scope ib.value canBC (by omega) hu
      constructor
      · intro msg hc
        rw [type_block] at hc
        cases hts : type_stmts scope ib.value canBC .mustNotReturn with
        | error e =>
          simp only [hts] at hc
          have he : e = .internalError msg := by simpa using hc
          exact hstmts.1 msg (he ▸ hts)
        | ok p =>
          obtain ⟨sc2, prs⟩ := p
          simp only [hts] at hc
          have hall := hstmts.2 sc2 prs hts
          have hcomb := combine_of_all_never prs hall
          simp only [hcomb] at hc
          simp [finish_block] at hc
      · intro t a hok
        rw [type_block] at hok
        cases hts : type_stmts scope ib.value canBC .mustNotReturn with
        | error e => rw [hts] at hok; exact absurd hok (by simp)
        | ok p =>
          obtain ⟨sc2, prs⟩ := p
          simp only [hts] at hok
          have hall := hstmts.2 sc2 prs hts
          have hcomb := combine_of_all_never prs hall
          simp only [hcomb] at hok
          simp only [finish_block, Except.ok.injEq, Prod.mk.injEq] at hok
          exact hok.2.symm
    refine ⟨part1, part2, ?_, ?_, ?_, ?_, ?_, ?_, ?_⟩
    · -- type_stmt
      intro scope s canBC hb hu
      obtain ⟨k, sp⟩ := s
      have hSp := span_one_le_sizeOf sp
      cases k with
      | emptyStmt =>
        constructor
        · intro msg; rw [type_stmt]; simp
        · intro sc opt ts a hok hsome
          rw [type_stmt] at hok
          simp only [Except.ok.injEq, Prod.mk.injEq] at hok
          rw [← hok.2] at hsome
          simp at hsome
      | breakStmt =>
        constructor
        · intro msg
          rw [type_stmt]
          split <;> simp
        · intro sc opt ts a hok hsome
          rw [type_stmt] at hok
          split at hok
          · simp only [Except.ok.injEq, Prod.mk.injEq] at hok
            rw [← hok.2] at hsome
            simp only [Option.some.injEq, Prod.mk.injEq] at hsome
            exact hsome.2.symm
          · exact absurd hok (by simp)
      | continueStmt =>
        constructor
        · intro msg
          rw [type_stmt]
          split <;> simp
        · intro sc opt ts a hok hsome
          rw [type_stmt] at hok
          split at hok
          · simp only [Except.ok.injEq, Prod.mk.injEq] at hok
            rw [← hok.2] at hsome
            simp only [Option.some.injEq, Prod.mk.injEq] at hsome
            exact hsome.2.symm
          · exact absurd hok (by simp)
      | unreachableStmt =>
        rw [stmt_has_unreachable] at hu
        simp at hu
      | declarationList decls =>
        constructor
        · intro msg
          rw [type_stmt]
          cases h1 : process_let_declaration scope decls.value with
          | error e =>
            simp only []
            intro hc
            have he : e = .internalError msg := by simpa using hc
            exact process_let_declaration_not_internal scope decls.value msg (he ▸ h1)
          | ok p => obtain ⟨sc2, tds⟩ := p; simp
        · intro sc opt ts a hok hsome
          rw [type_stmt] at hok
          cases h1 : process_let_declaration scope decls.value with
          | error e => rw [h1] at hok; exact absurd hok (by simp)
          | ok p =>
            obtain ⟨sc2, tds⟩ := p
            simp only [h1] at hok
            simp only [Except.ok.injEq, Prod.mk.injEq] at hok
            rw [← hok.2] at hsome
            simp only [Option.some.injEq, Prod.mk.injEq] at hsome
            exact hsome.2.symm
      | exprStmt e =>
        constructor
        · intro msg
          rw [type_stmt]
          cases h1 : type_expr scope e with
          | error err =>
            simp only []
            intro hc
            have he : err = .internalError msg := by simpa using hc
            exact type_expr_not_internal scope e msg (he ▸ h1)
          | ok te => simp
        · intro sc opt ts a hok hsome
          rw [type_stmt] at hok
          cases h1 : type_expr scope e with
          | error err => rw [h1] at hok; exact absurd hok (by simp)
          | ok te =>
            simp only [h1] at hok
            simp only [Except.ok.injEq, Prod.mk.injEq] at hok
            rw [← hok.2] at hsome
            simp only [Option.some.injEq, Prod.mk.injEq] at hsome
            exact hsome.2.symm
      | returnStmt value =>
        constructor
        · intro msg
          rw [type_stmt]
          cases h1 : resolve_return_value scope value with
          | error err =>
            simp only []
            intro hc
            have he : err = .internalError msg := by simpa using hc
            exact resolve_return_value_not_internal scope value msg (he ▸ h1)
          | ok rv => simp
        · intro sc opt ts a hok hsome
          rw [type_stmt] at hok
          cases h1 : resolve_return_value scope value with
          | error err => rw [h1] at hok; exact absurd hok (by simp)
          | ok rv => rw [h1] at hok; exact absurd hok (by simp)
      | blockStmt body =>
        have hu2 : stmts_have_unreachable body = false := by
          rw [stmt_has_unreachable] at hu
          exact hu
        have hsz : sizeOf (Stmt.mk (.blockStmt body) sp)
            = 1 + (1 + sizeOf body) + sizeOf sp := by simp
        have hbk := part1 scope ⟨body, sp⟩ canBC (by simp only [Spanned.value]; omega) hu2
        constructor
        · intro msg
          rw [type_stmt]
          simp only [demote_mustNotReturn]
          cases h1 : type_block scope ⟨body, sp⟩ canBC .mustNotReturn with
          | error e =>
            simp only []
            intro hc
            have he : e = .internalError msg := by simpa using hc
            exact hbk.1 msg (he ▸ h1)
          | ok p => obtain ⟨tb, ra⟩ := p; simp
        · intro sc opt ts a hok hsome
          rw [type_stmt] at hok
          simp only [demote_mustNotReturn] at hok
          cases h1 : type_block scope ⟨body, sp⟩ canBC .mustNotReturn with
          | error e => rw [h1] at hok; exact absurd hok (by simp)
          | ok p =>
            obtain ⟨tb, ra⟩ := p
            simp only [h1] at hok
            simp only [Except.ok.injEq, Prod.mk.injEq] at hok
            rw [← hok.2] at hsome
            simp only [Option.some.injEq, Prod.mk.injEq] at hsome
            rw [← hsome.2]
            exact hbk.2 tb ra h1
      | ifStmt cond thenS elseS =>
        have hu2 : stmt_has_unreachable thenS = false ∧
            (∀ es, elseS = some es → stmt_has_unreachable es = false) := by
          cases elseS with
          | none =>
            rw [stmt_has_unreachable] at hu
            have hu4 := Bool.or_eq_false_iff.mp hu
            exact ⟨hu4.1, by intro es he; cases he⟩
          | some es =>
            rw [stmt_has_unreachable] at hu
            have hu4 := Bool.or_eq_false_iff.mp hu
            refine ⟨hu4.1, ?_⟩
            intro es2 he
            injection he with h2
            subst h2
            exact hu4.2
        have hEc := expr_one_le_sizeOf cond
        have hOe := opt_one_le_sizeOf elseS
        have hsz : sizeOf (Stmt.mk (.ifStmt cond thenS elseS) sp)
            = 1 + (1 + sizeOf cond + sizeOf thenS + sizeOf elseS) + sizeOf sp := by simp
        have hif := ih4 scope cond thenS elseS canBC sp (by omega) hu2.1 hu2.2
        constructor
        · intro msg
          rw [type_stmt]
          cases h1 : type_if scope cond thenS elseS canBC .mustNotReturn sp with
          | error e =>
            simp only []
            intro hc
            have he : e = .internalError msg := by simpa using hc
            exact hif.1 msg (he ▸ h1)
          | ok r => simp
        · intro sc opt ts a hok hsome
          rw [type_stmt] at hok
          cases h1 : type_if scope cond thenS elseS canBC .mustNotReturn sp with
          | error e => rw [h1] at hok; exact absurd hok (by simp)
          | ok r =>
            simp only [h1] at hok
            simp only [Except.ok.injEq, Prod.mk.injEq] at hok
            rw [← hok.2] at hsome
            exact hif.2 r ts a h1 hsome
      | whileStmt cond body =>
        have hu2 : stmt_has_unreachable body = false := by
          rw [stmt_has_unreachable] at hu
          exact hu
        have hEc := expr_one_le_sizeOf cond
        have hsz : sizeOf (Stmt.mk (.whileStmt cond body) sp)
            = 1 + (1 + sizeOf cond + sizeOf body) + sizeOf sp := by simp
        have hw := ih5 scope cond body sp (by omega) hu2
        constructor
        · intro msg
          rw [type_stmt]
          cases h1 : type_while scope cond body .mustNotReturn sp with
          | error e =>
            simp only []
            intro hc
            have he : e = .internalError msg := by simpa using hc
            exact hw.1 msg (he ▸ h1)
          | ok r => simp
        · intro sc opt ts a hok hsome
          rw [type_stmt] at hok
          cases h1 : type_while scope cond body .mustNotReturn sp with
          | error e => rw [h1] at hok; exact absurd hok (by simp)
          | ok r =>
            simp only [h1] at hok
            simp only [Except.ok.injEq, Prod.mk.injEq] at hok
            rw [← hok.2] at hsome
            exact hw.2 r ts a h1 hsome
      | doWhileStmt body cond =>
        have hu2 : stmt_has_unreachable body = false := by
          rw [stmt_has_unreachable] at hu
          exact hu
        have hEc := expr_one_le_sizeOf cond
        have hsz : sizeOf (Stmt.mk (.doWhileStmt body cond) sp)
            = 1 + (1 + sizeOf body + sizeOf cond) + sizeOf sp := by simp
        have hw := ih6 scope body cond sp (by omega) hu2
        constructor
        · intro msg
          rw [type_stmt]
          cases h1 : type_do_while scope body cond .mustNotReturn sp with
          | error e =>
            simp only []
            intro hc
            have he : e = .internalError msg := by simpa using hc
            exact hw.1 msg (he ▸ h1)
          | ok r => simp
        · intro sc opt ts a hok hsome
          rw [type_stmt] at hok
          cases h1 : type_do_while scope body cond .mustNotReturn sp with
          | error e => rw [h1] at hok; exact absurd hok (by simp)
          | ok r =>
            simp only [h1] at hok
            simp only [Except.ok.injEq, Prod.mk.injEq] at hok
            rw [← hok.2] at hsome
            exact hw.2 r ts a h1 hsome
      | forStmt init cond post body =>
        have hu2 : stmt_has_unreachable body = false := by
          rw [stmt_has_unreachable] at hu
          exact hu
        have hOi := opt_one_le_sizeOf init
        have hOc := opt_one_le_sizeOf cond
        have hOp := opt_one_le_sizeOf post
        have hsz : sizeOf (Stmt.mk (.forStmt init cond post body) sp)
            = 1 + (1 + sizeOf init + sizeOf cond + sizeOf post + sizeOf body) + sizeOf sp := by
          simp
        have hw := ih7 scope init cond post body sp (by omega) hu2
        constructor
        · intro msg
          rw [type_stmt]
          cases h1 : type_for scope init cond post body .mustNotReturn sp with
          | error e =>
            simp only []
            intro hc
            have he : e = .internalError msg := by simpa using hc
            exact hw.1 msg (he ▸ h1)
          | ok r => simp
        · intro sc opt ts a hok hsome
          rw [type_stmt] at hok
          cases h1 : type_for scope init cond post body .mustNotReturn sp with
          | error e => rw [h1] at hok; exact absurd hok (by simp)
          | ok r =>
            simp only [h1] at hok
            simp only [Except.ok.injEq, Prod.mk.injEq] at hok
            rw [← hok.2] at hsome
            exact hw.2 r ts a h1 hsome
      | switchCase scrutinee cases =>
        have hu2 : arms_have_unreachable cases = false := by
          rw [stmt_has_unreachable] at hu
          exact hu
        have hsz : sizeOf (Stmt.mk (.switchCase scrutinee cases) sp)
            = 1 + (1 + sizeOf scrutinee + sizeOf cases) + sizeOf sp := by simp
        have hw := ih8 scope scrutinee cases sp (by omega) hu2
        constructor
        · intro msg
          rw [type_stmt]
          cases h1 : type_switch_case scope scrutinee cases .mustNotReturn sp with
          | error e =>
            simp only []
            intro hc
            have he : e = .internalError msg := by simpa using hc
            exact hw.1 msg (he ▸ h1)
          | ok r => simp
        · intro sc opt ts a hok hsome
          rw [type_stmt] at hok
          cases h1 : type_switch_case scope scrutinee cases .mustNotReturn sp with
          | error e => rw [h1] at hok; exact absurd hok (by simp)
          | ok r =>
            simp only [h1] at hok
            simp only [Except.ok.injEq, Prod.mk.injEq] at hok
            rw [← hok.2] at hsome
            exact hw.2 r ts a h1 hsome
    · -- type_if
      intro scope cond thenS elseS canBC sp hb huT huE
      cases elseS with
      | none =>
        rw [type_if]
        cases h1 : type_expr scope cond with
        | error e =>
          refine ⟨?_, by simp⟩
          intro msg hc
          have he : e = .internalError msg := by simpa using hc
          exact type_expr_not_internal scope cond msg (he ▸ h1)
        | ok tcond =>
          simp only []
          split
          · have hcz := coerce_stmt_into_block_sizeOf thenS
            have hthen := part1 scope (coerce_stmt_into_block thenS) canBC
              (by omega) (coerce_no_unreachable thenS huT)
            simp only [demote_mustNotReturn]
            cases h2 : type_block scope (coerce_stmt_into_block thenS) canBC .mustNotReturn with
            | error e =>
              refine ⟨?_, by simp⟩
              intro msg hc
              have he : e = .internalError msg := by simpa using hc
              exact hthen.1 msg (he ▸ h2)
            | ok p =>
              obtain ⟨tthen, act_then⟩ := p
              have hact := hthen.2 tthen act_then h2
              subst hact
              refine ⟨by simp, ?_⟩
              intro opt ts a hok hsome
              simp only [Except.ok.injEq] at hok
              rw [← hok] at hsome
              simp only [Option.some.injEq, Prod.mk.injEq] at hsome
              rw [← hsome.2]
          · exact ⟨by simp, by simp⟩
      | some es =>
        have hes : stmt_has_unreachable es = false := huE es rfl
        rw [type_if]
        cases h1 : type_expr scope cond with
        | error e =>
          refine ⟨?_, by simp⟩
          intro msg hc
          have he : e = .internalError msg := by simpa using hc
          exact type_expr_not_internal scope cond msg (he ▸ h1)
        | ok tcond =>
          simp only []
          split
          · have hcz := coerce_stmt_into_block_sizeOf thenS
            have hcz2 := coerce_stmt_into_block_sizeOf es
            have hsz2 : sizeOf (some es) = 1 + sizeOf es := by simp
            have hthen := part1 scope (coerce_stmt_into_block thenS) canBC
              (by omega) (coerce_no_unreachable thenS huT)
            simp only [demote_mustNotReturn]
            cases h2 : type_block scope (coerce_stmt_into_block thenS) canBC .mustNotReturn with
            | error e =>
              refine ⟨?_, by simp⟩
              intro msg hc
              have he : e = .internalError msg := by simpa using hc
              exact hthen.1 msg (he ▸ h2)
            | ok p =>
              obtain ⟨tthen, act_then⟩ := p
              have hact := hthen.2 tthen act_then h2
              subst hact
              have helse := part1 scope (coerce_stmt_into_block es) canBC
                (by omega) (coerce_no_unreachable es hes)
              cases h3 : type_block scope (coerce_stmt_into_block es) canBC .mustNotReturn with
              | error e =>
                refine ⟨?_, by simp⟩
                intro msg hc
                have he : e = .internalError msg := by simpa using hc
                exact helse.1 msg (he ▸ h3)
              | ok q =>
                obtain ⟨telse, act_else⟩ := q
                have hact2 := helse.2 telse act_else h3
                subst hact2
                refine ⟨by simp, ?_⟩
                intro opt ts a hok hsome
                simp only [Except.ok.injEq] at hok
                rw [← hok] at hsome
                simp only [Option.some.injEq, Prod.mk.injEq] at hsome
                rw [← hsome.2]
                rfl
          · exact ⟨by simp, by simp⟩
    · -- type_while
      intro scope cond body sp hb hu
      rw [type_while]
      cases h1 : type_expr scope cond with
      | error e =>
        refine ⟨?_, by simp⟩
        intro msg hc
        have he : e = .internalError msg := by simpa using hc
        exact type_expr_not_internal scope cond msg (he ▸ h1)
      | ok tcond =>
        simp only []
        split
        · have hcz := coerce_stmt_into_block_sizeOf body
          have hbody := part1 scope (coerce_stmt_into_block body) true
            (by omega) (coerce_no_unreachable body hu)
          simp only [demote_mustNotReturn]
          cases h2 : type_block scope (coerce_stmt_into_block body) true .mustNotReturn with
          | error e =>
            refine ⟨?_, by simp⟩
            intro msg hc
            have he : e = .internalError msg := by simpa using hc
            exact hbody.1 msg (he ▸ h2)
          | ok p =>
            obtain ⟨tbody, act⟩ := p
            have hact := hbody.2 tbody act h2
            subst hact
            refine ⟨by simp, ?_⟩
            intro opt ts a hok hsome
            simp only [Except.ok.injEq] at hok
            rw [← hok] at hsome
            simp only [Option.some.injEq, Prod.mk.injEq] at hsome
            rw [← hsome.2]
        · exact ⟨by simp, by simp⟩
    · -- type_do_while
      intro scope body cond sp hb hu
      rw [type_do_while]
      have hcz := coerce_stmt_into_block_sizeOf body
      have hbody := part1 scope (coerce_stmt_into_block body) true
        (by omega) (coerce_no_unreachable body hu)
      simp only [demote_mustNotReturn]
      cases h2 : type_block scope (coerce_stmt_into_block body) true .mustNotReturn with
      | error e =>
        refine ⟨?_, by simp⟩
        intro msg hc
        have he : e = .internalError msg := by simpa using hc
        exact hbody.1 msg (he ▸ h2)
      | ok p =>
        obtain ⟨tbody, act⟩ := p
        have hact := hbody.2 tbody act h2
        subst hact
        cases h1 : type_expr scope cond with
        | error e =>
          refine ⟨?_, by simp⟩
          intro msg hc
          have he : e = .internalError msg := by simpa using hc
          exact type_expr_not_internal scope cond msg (he ▸ h1)
        | ok tcond =>
          simp only []
          split
          · refine ⟨by simp, ?_⟩
            intro opt ts a hok hsome
            simp only [Except.ok.injEq] at hok
            rw [← hok] at hsome
            simp only [Option.some.injEq, Prod.mk.injEq] at hsome
            exact hsome.2.symm
          · exact ⟨by simp, by simp⟩
    · -- type_for
      intro scope init cond post body sp hb hu
      rw [type_for]
      cases h1 : type_for_init scope init with
      | error e =>
        refine ⟨?_, by simp⟩
        intro msg hc
        have he : e = .internalError msg := by simpa using hc
        exact type_for_init_not_internal scope init msg (he ▸ h1)
      | ok p =>
        obtain ⟨scope2, tinit⟩ := p
        simp only []
        cases h2 : type_for_cond scope2 cond sp with
        | error e =>
          refine ⟨?_, by simp⟩
          intro msg hc
          have he : e = .internalError msg := by simpa using hc
          exact type_for_cond_not_internal scope2 cond sp msg (he ▸ h2)
        | ok tcond =>
          simp only []
          cases h3 : type_for_post scope2 post with
          | error e =>
            refine ⟨?_, by simp⟩
            intro msg hc
            have he : e = .internalError msg := by simpa using hc
            exact type_for_post_not_internal scope2 post msg (he ▸ h3)
          | ok tpost =>
            simp only []
            have hcz := coerce_stmt_into_block_sizeOf body
            have hbody := part1 scope2 (coerce_stmt_into_block body) true
              (by omega) (coerce_no_unreachable body hu)
            simp only [demote_mustNotReturn]
            cases h4 : type_block scope2 (coerce_stmt_into_block body) true .mustNotReturn with
            | error e =>
              refine ⟨?_, by simp⟩
              intro msg hc
              have he : e = .internalError msg := by simpa using hc
              exact hbody.1 msg (he ▸ h4)
            | ok q =>
              obtain ⟨tbody, act⟩ := q
              have hact := hbody.2 tbody act h4
              subst hact
              refine ⟨by simp, ?_⟩
              intro opt ts a hok hsome
              simp only [Except.ok.injEq] at hok
              rw [← hok] at hsome
              simp only [Option.some.injEq, Prod.mk.injEq] at hsome
              rw [← hsome.2]
    · -- type_switch_case
      intro scope scrutinee cases sp hb hu
      rw [type_switch_case]
      cases h1 : type_expr scope scrutinee with
      | error e =>
        refine ⟨?_, by simp⟩
        intro msg hc
        have he : e = .internalError msg := by simpa using hc
        exact type_expr_not_internal scope scrutinee msg (he ▸ h1)
      | ok tscrut =>
        simp only []
        split
        · split
          · exact ⟨by simp, by simp⟩
          · split
            · exact ⟨by simp, by simp⟩
            · have harms := ih9 scope tscrut.inferred_type cases (by omega) hu
              cases h2 : type_switch_arms scope tscrut.inferred_type cases .mustNotReturn with
              | error e =>
                refine ⟨?_, by simp⟩
                intro msg hc
                have he : e = .internalError msg := by simpa using hc
                exact harms.1 msg (he ▸ h2)
              | ok trip =>
                obtain ⟨defaultB, tcases, acts⟩ := trip
                simp only []
                have hr := harms.2 defaultB tcases acts h2
                have hact := switch_actuality_of_never defaultB.isSome acts hr.1 hr.2
                refine ⟨by simp, ?_⟩
                intro opt ts a hok hsome
                simp only [Except.ok.injEq] at hok
                rw [← hok] at hsome
                simp only [Option.some.injEq, Prod.mk.injEq] at hsome
                rw [← hsome.2]
                exact hact
        · exact ⟨by simp, by simp⟩
    · -- type_switch_arms
      intro scope scrut_ty arms hb hu
      cases arms with
      | nil =>
        rw [type_switch_arms]
        refine ⟨by simp, ?_⟩
        intro d cs acts hok
        simp only [Except.ok.injEq, Prod.mk.injEq] at hok
        obtain ⟨hd, hcs, hacts⟩ := hok
        subst hd
        subst hacts
        exact ⟨by simp, by simp⟩
      | cons arm rest =>
        obtain ⟨label, body⟩ := arm
        have hu2 : stmt_has_unreachable body = false ∧ arms_have_unreachable rest = false := by
          rw [arms_have_unreachable] at hu
          simpa using hu
        have hcz := coerce_stmt_into_block_sizeOf body
        have hOl := opt_one_le_sizeOf label
        have hsz : sizeOf (SwitchArm.mk label body :: rest)
            = 1 + (1 + sizeOf label + sizeOf body) + sizeOf rest := by simp
        have hblock := part1 scope (coerce_stmt_into_block body) true
          (by omega) (coerce_no_unreachable body hu2.1)
        have hrest := ih9 scope scrut_ty rest (by omega) hu2.2
        rw [type_switch_arms]
        simp only [demote_mustNotReturn]
        cases h1 : type_block scope (coerce_stmt_into_block body) true .mustNotReturn with
        | error e =>
          refine ⟨?_, by simp⟩
          intro msg hc
          have he : e = .internalError msg := by simpa using hc
          exact hblock.1 msg (he ▸ h1)
        | ok p =>
          obtain ⟨tbody, act⟩ := p
          simp only []
          have hact := hblock.2 tbody act h1
          subst hact
          cases h2 : type_switch_arms scope scrut_ty rest .mustNotReturn with
          | error e =>
            refine ⟨?_, by simp⟩
            intro msg hc
            have he : e = .internalError msg := by simpa using hc
            exact hrest.1 msg (he ▸ h2)
          | ok trip =>
            obtain ⟨defaultB, tcases, acts⟩ := trip
            simp only []
            have hr := hrest.2 defaultB tcases acts h2
            cases label with
            | none =>
              simp only []
              refine ⟨by simp, ?_⟩
              intro d cs acts2 hok
              simp only [Except.ok.injEq, Prod.mk.injEq] at hok
              obtain ⟨hd, hcs, hacts⟩ := hok
              subst hacts
              refine ⟨?_, by simp⟩
              intro a ha
              rcases List.mem_cons.mp ha with ha1 | ha1
              · exact ha1
              · exact hr.1 a ha1
            | some lab =>
              simp only []
              cases h3 : switch_label_check scrut_ty lab with
              | error e =>
                refine ⟨?_, by simp⟩
                intro msg hc
                have he : e = .internalError msg := by simpa using hc
                exact switch_label_check_not_internal scrut_ty lab msg (he ▸ h3)
              | ok tlabel =>
                refine ⟨by simp, ?_⟩
                intro d cs acts2 hok
                simp only [Except.ok.injEq, Prod.mk.injEq] at hok
                obtain ⟨hd, hcs, hacts⟩ := hok
                subst hacts
                refine ⟨?_, by simp⟩
                intro a ha
                rcases List.mem_cons.mp ha with ha1 | ha1
                · exact ha1
                · exact hr.1 a ha1

/-- C9 counterexample: the internal-error branch of type_block for
MustNotReturn combined with SometimesReturns or AlwaysReturns is reachable:
an UnreachableStmt is accepted without any diagnostic and contributes
actuality AlwaysReturns (block.rs lines 116 to 121), so a MustNotReturn
block containing only an unreachable statement reaches the panic. -/
theorem type_block_mustNot_internal_error_reachable :
    type_block [] ⟨[Stmt.mk .unreachableStmt ⟨0, 11, "w"⟩], ⟨0, 13, "w"⟩⟩ false .mustNotReturn
      = .error (.internalError
          "block must not return, but a sub-block may return -- this should have been caught when checking that block") := by
  simp [type_block, type_stmts, type_stmt, finish_block, combine_actualities,
    might_pred, will_pred]

/-- C9 amended: for every MustNotReturn block that contains no UnreachableStmt
at any nesting depth, the internal-error (panic) branch of type_block is
unreachable (every statement that could return is rejected with a diagnostic
first), and on success the combined actuality is NeverReturns. With an
UnreachableStmt the panic branch is reachable, because an unreachable
statement contributes actuality AlwaysReturns without any diagnostic. -/
theorem type_block_mustNot_no_internal_error
    (scope : Scope) (stmts : List Stmt) (sp : Span) (canBC : Bool)
    (h : stmts_have_unreachable stmts = false) :
    (∀ msg, type_block scope ⟨stmts, sp⟩ canBC .mustNotReturn
        ≠ .error (.internalError msg))
    ∧ (∀ t a, type_block scope ⟨stmts, sp⟩ canBC .mustNotReturn = .ok (t, a) →
        a = .neverReturns) :=
  (typeck_mustNot_invariant (2 * sizeOf stmts + 1)).1 scope ⟨stmts, sp⟩ canBC le_rfl h

/-- Witness for the amended C9: a block containing a single break statement,
typed in a loop context under MustNotReturn. -/
theorem type_block_mustNot_no_internal_error_witness :
    ((∀ msg, type_block [] ⟨[Stmt.mk .breakStmt ⟨0, 5, "w"⟩], ⟨0, 7, "w"⟩⟩ true .mustNotReturn
        ≠ .error (.internalError msg))
    ∧ (∀ t a,
        type_block [] ⟨[Stmt.mk .breakStmt ⟨0, 5, "w"⟩], ⟨0, 7, "w"⟩⟩ true .mustNotReturn
          = .ok (t, a) →
        a = .neverReturns)) :=
  type_block_mustNot_no_internal_error [] [Stmt.mk .breakStmt ⟨0, 5, "w"⟩] ⟨0, 7, "w"⟩ true
    (by simp [stmts_have_unreachable, stmt_has_unreachable])

/-! ## The code generator

Basic blocks are numbered by creation order and SSA registers by emission
order, mirroring inkwell's append_basic_block and instruction builders. The
Builder structure carries the two counters, the block the builder is
positioned at, and the emission trace: the list of emitted instructions,
each tagged with the block it was emitted into. Rust panics (the .expect
calls of the source) are modelled as the none result. -/

/-- An LLVM-level value: a numbered SSA register or a constant. -/
inductive Val where
  | reg (r : Nat)
  | constInt (n : Int)
  | constBool (b : Bool)
deriving DecidableEq

/-- The instructions emitted by the sampled code generator sources. Result
registers are explicit so that the emission trace determines the data flow. -/
inductive Instr where
  | load (result : Nat) (addr : Val)
  | store (value : Val) (addr : Val)
  | gep (result : Nat) (ty : Ty) (base : Val) (idx : Val)
  | structGep (result : Nat) (ty : Ty) (base : Val) (idx : Nat)
  | binop (result : Nat) (op : String) (lhs rhs : Val)
  | castOp (result : Nat) (inner : Val) (target : Ty)
  | callOp (result : Nat) (callee : String) (args : List Val)
  | alloca (result : Nat) (ty : Ty)
  | br (target : Nat)
  | condBr (cond : Val) (thenBB elseBB : Nat)
  | switchBr (scrutinee : Val) (defaultBB : Nat) (cases : List (Val × Nat))
  | retVal (v : Val)
  | unreachableInstr
deriving DecidableEq

/-- The builder state: fresh-register counter, fresh-block counter, the block
the builder is currently positioned at, and the emission trace (block, instr)
in emission order. -/
structure Builder where
  nextReg : Nat
  nextBlock : Nat
  pos : Nat
  trace : List (Nat × Instr)
deriving DecidableEq

/-- Emit an instruction into the block the builder is positioned at. -/
def Builder.emit (st : Builder) (i : Instr) : Builder :=
  { st with trace := st.trace ++ [(st.pos, i)] }

/-- Mirror of ctx.append_basic_block: create the next basic block. -/
def Builder.append_basic_block (st : Builder) : Nat × Builder :=
  (st.nextBlock, { st with nextBlock := st.nextBlock + 1 })

/-- Mirror of builder.position_at_end. -/
def Builder.position_at_end (st : Builder) (bb : Nat) : Builder :=
  { st with pos := bb }

/-- The codegen scope (crate::scope::CgScope): identifier to pointer value. -/
def CgScope : Type := List (String × Val)

/-- Mirror of CgScope::get: the most recent binding of an identifier. -/
def CgScope.get : CgScope → String → Option Val
  | [], _ => none
  | (y, v) :: rest, x => if y = x then some v else CgScope.get rest x

mutual
/-- Mirror of cg_place in src/compiler/zrc_codegen/src/expr/place.rs: resolve
a place to its pointer. Returns (current block, pointer value, builder); none
models the panicking .expect paths (missing identifier, invalid struct field,
property access on a non-struct). The debug-location bookkeeping of the
source (which emits no instruction) is not modelled. -/
def cg_place (scope : CgScope) (bb : Nat) (place : Place) (st : Builder) :
    Option (Nat × Val × Builder) :=
  match place with
  | .mk inferred_type ⟨kind, _sp⟩ =>
    match kind with
    | .var x =>
      match CgScope.get scope x with
      | some reg => some (bb, reg, st)
      | none => none
    | .deref x => cg_expr scope bb x st
    | .index ptr idx =>
      match cg_expr scope bb ptr st with
      | none => none
      | some (bb1, pv, st1) =>
        match cg_expr scope bb1 idx st1 with
        | none => none
        | some (bb2, iv, st2) =>
          some (bb2, Val.reg st2.nextReg,
            Builder.emit { st2 with nextReg := st2.nextReg + 1 }
              (.gep st2.nextReg inferred_type pv iv))
    | .dot x prop =>
      match Place.inferred_type x with
      | .structTy contents =>
        match contents.idxOf? prop.value with
        | none => none
        | some prop_idx =>
          match cg_place scope bb x st with
          | none => none
          | some (bb1, xv, st1) =>
            some (bb1, Val.reg st1.nextReg,
              Builder.emit { st1 with nextReg := st1.nextReg + 1 }
                (.structGep st1.nextReg (.structTy contents) xv prop_idx))
      | .unionTy _ => cg_place scope bb x st
      | _ => none
termination_by 2 * sizeOf place
decreasing_by
  all_goals simp_wf
  all_goals omega

/-- Modelled from the spec: cg_expr (spec section 4.5) for the expression
kinds of the data model. Literals become constants; a place read lowers the
place and loads from the resulting pointer; binary operations, calls and
casts lower their operands left-to-right then emit one fresh-result
instruction; address-of returns the place's pointer as the value with no
instruction. The short-circuit diamond of logical operators is outside the
modelled expression kinds, so cg_expr never creates basic blocks here. -/
def cg_expr (scope : CgScope) (bb : Nat) (e : TypedExpr) (st : Builder) :
    Option (Nat × Val × Builder) :=
  match e with
  | .mk _inferred_type ⟨kind, _sp⟩ =>
    match kind with
    | .intLit n => some (bb, Val.constInt n, st)
    | .boolLit b => some (bb, Val.constBool b, st)
    | .placeValue pl =>
      match cg_place scope bb pl st with
      | none => none
      | some (bb1, ptr, st1) =>
        some (bb1, Val.reg st1.nextReg,
          Builder.emit { st1 with nextReg := st1.nextReg + 1 }
            (.load st1.nextReg ptr))
    | .binary op lhs rhs =>
      match cg_expr scope bb lhs st with
      | none => none
      | some (bb1, lv, st1) =>
        match cg_expr scope bb1 rhs st1 with
        | none => none
        | some (bb2, rv, st2) =>
          some (bb2, Val.reg st2.nextReg,
            Builder.emit { st2 with nextReg := st2.nextReg + 1 }
              (.binop st2.nextReg op lv rv))
    | .call callee args =>
      match cg_args scope bb args st with
      | none => none
      | some (bb1, vals, st1) =>
        some (bb1, Val.reg st1.nextReg,
          Builder.emit { st1 with nextReg := st1.nextReg + 1 }
            (.callOp st1.nextReg callee vals))
    | .addressOf pl => cg_place scope bb pl st
    | .cast inner target =>
      match cg_expr scope bb inner st with
      | none => none
      | some (bb1, v, st1) =>
        some (bb1, Val.reg st1.nextReg,
          Builder.emit { st1 with nextReg := st1.nextReg + 1 }
            (.castOp st1.nextReg v target))
termination_by 2 * sizeOf e
decreasing_by
  all_goals simp_wf
  all_goals omega

/-- Modelled from the spec: lower call arguments left-to-right (spec section
4.5), threading the current block and builder. -/
def cg_args (scope : CgScope) (bb : Nat) (args : List TypedExpr) (st : Builder) :
    Option (Nat × List Val × Builder) :=
  match args with
  | [] => some (bb, [], st)
  | a :: rest =>
    match cg_expr scope bb a st with
    | none => none
    | some (bb1, v, st1) =>
      match cg_args scope bb1 rest st1 with
      | none => none
      | some (bb2, vs, st2) => some (bb2, v :: vs, st2)
termination_by 2 * sizeOf args
decreasing_by
  all_goals simp_wf
  all_goals omega
end

/-- Mirror of crate::stmt::LoopBreakaway: the blocks that break and continue
branch to inside a loop body. -/
structure LoopBreakaway where
  on_break : Nat
  on_continue : Nat
deriving DecidableEq

/-- The value inside a spanned pair is strictly smaller than the pair. -/
theorem Spanned.value_sizeOf_lt {α : Type} [SizeOf α] (s : Spanned α) :
    sizeOf s.value < sizeOf s := by
  cases s; simp_arith

/-- Modelled from the spec: cg_let_declaration (spec section 4.6,
DeclarationList): for each declaration emit an alloca of the declared type,
evaluate the initializer (if any) in the pre-insertion scope, store it into
the slot, and insert the binding into the scope for the following
declarations and statements. The source emits the alloca into the function
entry block; the model emits it at the current position, which leaves the
trace contents per block equivalent up to the entry-block hoisting. -/
def cg_let_declaration (scope : CgScope) (bb : Nat)
    (declarations : List (Spanned TypedLetDeclaration)) (st : Builder) :
    Option (Nat × CgScope × Builder) :=
  match declarations with
  | [] => some (bb, scope, st)
  | d :: rest =>
    match d.value.value with
    | none =>
      cg_let_declaration ((d.value.name, Val.reg st.nextReg) :: scope) bb rest
        (Builder.emit { st with nextReg := st.nextReg + 1 }
          (.alloca st.nextReg d.value.ty))
    | some init =>
      match cg_expr scope bb init
          (Builder.emit { st with nextReg := st.nextReg + 1 }
            (.alloca st.nextReg d.value.ty)) with
      | none => none
      | some (bb1, v, st1) =>
        cg_let_declaration ((d.value.name, Val.reg st.nextReg) :: scope) bb1 rest
          (st1.emit (.store v (Val.reg st.nextReg)))

/-- The init phase of cg_for_stmt: run the declarations if present
(loops.rs lines 45 to 47). -/
def cg_for_init (scope : CgScope) (bb : Nat)
    (init : Option (List (Spanned TypedLetDeclaration))) (st : Builder) :
    Option (Nat × CgScope × Builder) :=
  match init with
  | none => some (bb, scope, st)
  | some ds => cg_let_declaration scope bb ds st

/-- The header phase of cg_for_stmt (loops.rs lines 56 to 83): branch from
the preheader to the header, position there, then either branch
unconditionally to the body (no condition) or lower the condition and branch
conditionally to the body or the exit. none models a panicking condition. -/
def cg_for_header (scope : CgScope) (header body_bb exit : Nat)
    (cond : Option TypedExpr) (st : Builder) : Option Builder :=
  match cond with
  | none =>
    some (((st.emit (.br header)).position_at_end header).emit (.br body_bb))
  | some c =>
    match cg_expr scope header c
        ((st.emit (.br header)).position_at_end header) with
    | none => none
    | some (_h2, condV, st1) => some (st1.emit (.condBr condV body_bb exit))

/-- The latch phase of cg_for_stmt (loops.rs lines 106 to 118): position at
the latch, lower post (if present, result discarded), branch back to the
header, and leave the builder positioned at the exit, which is returned. -/
def cg_for_latch (scope : CgScope) (latch header exit : Nat)
    (post : Option TypedExpr) (st : Builder) : Option (Nat × Builder) :=
  match post with
  | none =>
    some (exit, ((st.position_at_end latch).emit (.br header)).position_at_end exit)
  | some p =>
    match cg_expr scope latch p (st.position_at_end latch) with
    | none => none
    | some (_bb, _v, st1) =>
      some (exit, (st1.emit (.br header)).position_at_end exit)

/-- Modelled from the spec: the constant value of a switch case label
(spec section 4.6, SwitchCase). The statement type-checker only admits
literal labels; any other expression kind models the panicking path. -/
def case_label_val (e : TypedExpr) : Option Val :=
  match e.kind.value with
  | .intLit n => some (Val.constInt n)
  | .boolLit b => some (Val.constBool b)
  | _ => none

mutual
/-- Mirror of cg_block in src/compiler/zrc_codegen/src/stmt.rs: process a
block of statements by folding cg_stmt over them, starting from the cloned
parent scope (the clone is implicit: the caller's scope list is simply not
updated). Returns (fall-through block or none if terminated, builder); the
outer none models a panic. The debug lexical block bookkeeping is not
modelled. -/
def cg_block (scope : CgScope) (bb : Nat) (block : Spanned (List TypedStmt))
    (breakaway : Option LoopBreakaway) (st : Builder) :
    Option (Option Nat × Builder) :=
  cg_stmts scope bb block.value breakaway st
termination_by 2 * sizeOf block.value + 1
decreasing_by
  all_goals simp_wf
  all_goals omega

/-- The try_fold of cg_block (stmt.rs lines 82 to 232): statements are
processed in order, threading the current block, the scope (so declarations
are visible to later statements of the same block) and the builder; a
terminated statement short-circuits the fold. -/
def cg_stmts (scope : CgScope) (bb : Nat) (stmts : List TypedStmt)
    (breakaway : Option LoopBreakaway) (st : Builder) :
    Option (Option Nat × Builder) :=
  match stmts with
  | [] => some (some bb, st)
  | s :: rest =>
    match cg_stmt scope bb s breakaway st with
    | none => none
    | some (none, _scope1, st1) => some (none, st1)
    | some (some bb1, scope1, st1) => cg_stmts scope1 bb1 rest breakaway st1
termination_by 2 * sizeOf stmts
decreasing_by
  all_goals simp_wf
  all_goals omega

/-- One arm of the try_fold closure of cg_block (stmt.rs lines 97 to 231),
dispatching on the statement kind. Returns (fall-through block or none if
terminated, updated scope, builder); the outer none models a panic (for
break and continue, the .expect on a missing breakaway). -/
def cg_stmt (scope : CgScope) (bb : Nat) (s : TypedStmt)
    (breakaway : Option LoopBreakaway) (st : Builder) :
    Option (Option Nat × CgScope × Builder) :=
  match s with
  | .mk ⟨kind, sp⟩ =>
    match kind with
    | .unreachableStmt => some (none, scope, st.emit .unreachableInstr)
    | .switchCase scrutinee defaultB cases =>
      match cg_switch_stmt scope bb breakaway scrutinee defaultB cases sp st with
      | none => none
      | some (bb2, st2) => some (some bb2, scope, st2)
    | .exprStmt e =>
      match cg_expr scope bb e st with
      | none => none
      | some (bb2, _v, st2) => some (some bb2, scope, st2)
    | .ifStmt cond thenB elseB =>
      match cg_if_stmt scope bb breakaway cond thenB elseB st with
      | none => none
      | some (obb, st2) => some (obb, scope, st2)
    | .blockStmt blk =>
      match cg_block scope bb ⟨blk, sp⟩ breakaway st with
      | none => none
      | some (obb, st2) => some (obb, scope, st2)
    | .returnStmt (some e) =>
      match cg_expr scope bb e st with
      | none => none
      | some (_bb2, v, st2) => some (none, scope, st2.emit (.retVal v))
    | .returnStmt none =>
      -- the source returns the zero value of the unit type
      some (none, scope, st.emit (.retVal (Val.constInt 0)))
    | .continueStmt =>
      match breakaway with
      | some ba => some (none, scope, st.emit (.br ba.on_continue))
      | none => none
    | .breakStmt =>
      match breakaway with
      | some ba => some (none, scope, st.emit (.br ba.on_break))
      | none => none
    | .declarationList decls =>
      match cg_let_declaration scope bb decls st with
      | none => none
      | some (bb2, scope2, st2) => some (some bb2, scope2, st2)
    | .forStmt init cond post body =>
      match cg_for_stmt scope bb init cond post body st with
      | none => none
      | some (bb2, st2) => some (some bb2, scope, st2)
    | .whileStmt cond body =>
      match cg_while_stmt scope cond body st with
      | none => none
      | some (bb2, st2) => some (some bb2, scope, st2)
    | .doWhileStmt body cond =>
      match cg_do_while_stmt scope body cond st with
      | none => none
      | some (bb2, st2) => some (some bb2, scope, st2)
termination_by 2 * sizeOf s
decreasing_by
  all_goals simp_wf
  all_goals try (rename Spanned (List TypedStmt) => z9; have h9 := Spanned.value_sizeOf_lt z9)
  all_goals omega

/-- Modelled from the spec: cg_if_stmt (spec section 4.6, IfStmt): create
then, else (if present) and merge blocks, lower the condition, branch
conditionally, lower each branch, and branch fall-through arms to merge.
When both branches terminate the caller is terminated (the merge block is
created upfront in the model and simply left unused in that case); without
an else the false edge goes directly to merge. -/
def cg_if_stmt (scope : CgScope) (bb : Nat) (breakaway : Option LoopBreakaway)
    (cond : TypedExpr) (thenB : Spanned (List TypedStmt))
    (elseB : Option (Spanned (List TypedStmt))) (st : Builder) :
    Option (Option Nat × Builder) :=
  match elseB with
  | none =>
    match cg_expr scope bb cond st with
    | none => none
    | some (_bb1, condV, st1) =>
      match Builder.append_basic_block st1 with
      | (then_bb, st2) =>
        match Builder.append_basic_block st2 with
        | (merge, st3) =>
          match cg_block scope then_bb thenB breakaway
              ((st3.emit (.condBr condV then_bb merge)).position_at_end then_bb) with
          | none => none
          | some (some _, st4) =>
            some (some merge, (st4.emit (.br merge)).position_at_end merge)
          | some (none, st4) =>
            some (some merge, st4.position_at_end merge)
  | some els =>
    match cg_expr scope bb cond st with
    | none => none
    | some (_bb1, condV, st1) =>
      match Builder.append_basic_block st1 with
      | (then_bb, st2) =>
        match Builder.append_basic_block st2 with
        | (else_bb, st3) =>
          match Builder.append_basic_block st3 with
          | (merge, st4) =>
            match cg_block scope then_bb thenB breakaway
                ((st4.emit (.condBr condV then_bb else_bb)).position_at_end then_bb) with
            | none => none
            | some (some _, st5) =>
              match cg_block scope else_bb els breakaway
                  ((st5.emit (.br merge)).position_at_end else_bb) with
              | none => none
              | some (some _, st6) =>
                some (some merge, (st6.emit (.br merge)).position_at_end merge)
              | some (none, st6) =>
                some (some merge, st6.position_at_end merge)
            | some (none, st5) =>
              match cg_block scope else_bb els breakaway
                  (st5.position_at_end else_bb) with
              | none => none
              | some (some _, st6) =>
                some (some merge, (st6.emit (.br merge)).position_at_end merge)
              | some (none, st6) => some (none, st6)
termination_by 2 * sizeOf thenB + 2 * sizeOf elseB + 4
decreasing_by
  all_goals simp_wf
  all_goals try (have hA := Spanned.value_sizeOf_lt thenB)
  all_goals try (rename Spanned (List TypedStmt) => z9; have hB := Spanned.value_sizeOf_lt z9)
  all_goals omega

/-- Modelled from the spec: cg_switch_stmt (spec section 4.6, SwitchCase):
lower the scrutinee, create the exit block, create and fill one block per
case (fall-through arms branch to the exit: cases are non-fallthrough), then
the default block if an explicit default exists (otherwise the default edge
is the exit), and finally emit the switch terminator in the entry block and
leave the builder positioned at the exit. -/
def cg_switch_stmt (scope : CgScope) (bb : Nat) (breakaway : Option LoopBreakaway)
    (scrutinee : TypedExpr) (defaultB : Option (List TypedStmt))
    (cases : List (TypedExpr × List TypedStmt)) (sp : Span) (st : Builder) :
    Option (Nat × Builder) :=
  match cg_expr scope bb scrutinee st with
  | none => none
  | some (bb1, scrutV, st1) =>
    match Builder.append_basic_block st1 with
    | (exit, st2) =>
      match cg_switch_cases scope breakaway exit cases sp st2 with
      | none => none
      | some (caseTargets, st3) =>
        match defaultB with
        | none =>
          some (exit, (((st3.position_at_end bb1).emit
            (.switchBr scrutV exit caseTargets)).position_at_end exit))
        | some db =>
          match Builder.append_basic_block st3 with
          | (dbb, st4) =>
            match cg_block scope dbb ⟨db, sp⟩ breakaway
                (st4.position_at_end dbb) with
            | none => none
            | some (some _, st5) =>
              some (exit, ((((st5.emit (.br exit)).position_at_end bb1).emit
                (.switchBr scrutV dbb caseTargets)).position_at_end exit))
            | some (none, st5) =>
              some (exit, (((st5.position_at_end bb1).emit
                (.switchBr scrutV dbb caseTargets)).position_at_end exit))
termination_by 2 * sizeOf defaultB + 2 * sizeOf cases + 4
decreasing_by
  all_goals simp_wf
  all_goals omega

/-- Modelled from the spec: create and fill the case blocks of a switch in
declaration order, collecting (label constant, block) targets; fall-through
case bodies branch to the exit. -/
def cg_switch_cases (scope : CgScope) (breakaway : Option LoopBreakaway)
    (exit : Nat) (cases : List (TypedExpr × List TypedStmt)) (sp : Span)
    (st : Builder) : Option (List (Val × Nat) × Builder) :=
  match cases with
  | [] => some ([], st)
  | (label, body) :: rest =>
    match case_label_val label with
    | none => none
    | some lv =>
      match Builder.append_basic_block st with
      | (cbb, st1) =>
        match cg_block scope cbb ⟨body, sp⟩ breakaway
            (st1.position_at_end cbb) with
        | none => none
        | some (some _, st2) =>
          match cg_switch_cases scope breakaway exit rest sp
              (st2.emit (.br exit)) with
          | none => none
          | some (tgts, st3) => some ((lv, cbb) :: tgts, st3)
        | some (none, st2) =>
          match cg_switch_cases scope breakaway exit rest sp st2 with
          | none => none
          | some (tgts, st3) => some ((lv, cbb) :: tgts, st3)
termination_by 2 * sizeOf cases
decreasing_by
  all_goals simp_wf
  all_goals omega

/-- Mirror of cg_for_stmt in src/compiler/zrc_codegen/src/stmt/loops.rs:
run init in the preheader (the current block), append header, body, latch
and exit in that order, branch to the header, lower the condition there
(unconditional branch to the body when absent), lower the body with
LoopBreakaway (on_break = exit, on_continue = latch), branch fall-through
bodies to the latch, run post in the latch and branch back to the header,
and leave the builder positioned at the exit, which is returned. -/
def cg_for_stmt (scope : CgScope) (bb : Nat)
    (init : Option (List (Spanned TypedLetDeclaration)))
    (cond : Option TypedExpr) (post : Option TypedExpr)
    (body : Spanned (List TypedStmt)) (st : Builder) : Option (Nat × Builder) :=
  match cg_for_init scope bb init st with
  | none => none
  | some (_bb1, scope1, st1) =>
    match Builder.append_basic_block st1 with
    | (header, st2) =>
      match Builder.append_basic_block st2 with
      | (body_bb, st3) =>
        match Builder.append_basic_block st3 with
        | (latch, st4) =>
          match Builder.append_basic_block st4 with
          | (exit, st5) =>
            match cg_for_header scope1 header body_bb exit cond st5 with
            | none => none
            | some st6 =>
              match cg_block scope1 body_bb body (some ⟨exit, latch⟩)
                  (st6.position_at_end body_bb) with
              | none => none
              | some (some _, st7) =>
                cg_for_latch scope1 latch header exit post (st7.emit (.br latch))
              | some (none, st7) =>
                cg_for_latch scope1 latch header exit post st7
termination_by 2 * sizeOf body.value + 2
decreasing_by
  all_goals simp_wf
  all_goals omega

/-- Mirror of cg_while_stmt in src/compiler/zrc_codegen/src/stmt/loops.rs:
append header, body and exit in that order, branch to the header, lower the
condition in the header and branch conditionally to the body or the exit,
lower the body with LoopBreakaway (on_break = exit, on_continue = header),
branch fall-through bodies back to the header, and leave the builder
positioned at the exit, which is returned. -/
def cg_while_stmt (scope : CgScope) (cond : TypedExpr)
    (body : Spanned (List TypedStmt)) (st : Builder) : Option (Nat × Builder) :=
  match Builder.append_basic_block st with
  | (header, st1) =>
    match Builder.append_basic_block st1 with
    | (body_bb, st2) =>
      match Builder.append_basic_block st2 with
      | (exit, st3) =>
        match cg_expr scope header cond
            ((st3.emit (.br header)).position_at_end header) with
        | none => none
        | some (_h2, condV, st4) =>
          match cg_block scope body_bb body (some ⟨exit, header⟩)
              ((st4.emit (.condBr condV body_bb exit)).position_at_end body_bb) with
          | none => none
          | some (some _, st5) =>
            some (exit, (st5.emit (.br header)).position_at_end exit)
          | some (none, st5) => some (exit, st5.position_at_end exit)
termination_by 2 * sizeOf body.value + 2
decreasing_by
  all_goals simp_wf
  all_goals omega

/-- Mirror of cg_do_while_stmt in src/compiler/zrc_codegen/src/stmt/loops.rs:
append body, header and exit in that order, branch to the body (which runs at
least once), lower the body with LoopBreakaway (on_break = exit,
on_continue = header), branch fall-through bodies to the header, lower the
condition in the header and branch conditionally back to the body start or
to the exit, and leave the builder positioned at the exit, which is
returned. -/
def cg_do_while_stmt (scope : CgScope) (body : Spanned (List TypedStmt))
    (cond : TypedExpr) (st : Builder) : Option (Nat × Builder) :=
  match Builder.append_basic_block st with
  | (body_bb, st1) =>
    match Builder.append_basic_block st1 with
    | (header, st2) =>
      match Builder.append_basic_block st2 with
      | (exit, st3) =>
        match cg_block scope body_bb body (some ⟨exit, header⟩)
            ((st3.emit (.br body_bb)).position_at_end body_bb) with
        | none => none
        | some (some _, st4) =>
          match cg_expr scope header cond
              ((st4.emit (.br header)).position_at_end header) with
          | none => none
          | some (_h2, condV, st5) =>
            some (exit, (st5.emit (.condBr condV body_bb exit)).position_at_end exit)
        | some (none, st4) =>
          match cg_expr scope header cond (st4.position_at_end header) with
          | none => none
          | some (_h2, condV, st5) =>
            some (exit, (st5.emit (.condBr condV body_bb exit)).position_at_end exit)
termination_by 2 * sizeOf body.value + 2
decreasing_by
  all_goals simp_wf
  all_goals omega
end

/-! ## The cg_place load-freedom invariant -/

/-- A value only mentions registers below a bound (constants mention none). -/
def Val.regsLt : Val → Nat → Bool
  | .reg i, n => decide (i < n)
  | .constInt _, _ => true
  | .constBool _, _ => true

/-- The result register of an instruction, if it defines one. -/
def Instr.result? : Instr → Option Nat
  | .load r _ => some r
  | .gep r _ _ _ => some r
  | .structGep r _ _ _ => some r
  | .binop r _ _ _ => some r
  | .castOp r _ _ => some r
  | .callOp r _ _ => some r
  | .alloca r _ => some r
  | .store _ _ => none
  | .br _ => none
  | .condBr _ _ _ => none
  | .switchBr _ _ _ => none
  | .retVal _ => none
  | .unreachableInstr => none

/-- Every pointer stored in the scope mentions only registers below n,
the well-formedness the code generator maintains: variables resolve to
allocas emitted before the current instruction. -/
def CgScope.wf : CgScope → Nat → Bool
  | [], _ => true
  | (_, v) :: rest, n => Val.regsLt v n && CgScope.wf rest n

/-- In a trace segment, every load's address mentions only registers defined
before the load's own result register. -/
def loads_selfBounded (Δ : List (Nat × Instr)) : Prop :=
  ∀ blk r a, (blk, Instr.load r a) ∈ Δ → Val.regsLt a r = true

/-- In a trace segment, every result register is below a bound. -/
def results_bounded (Δ : List (Nat × Instr)) (hi : Nat) : Prop :=
  ∀ blk i r, (blk, i) ∈ Δ → Instr.result? i = some r → r < hi

/-- A trace segment contains no load whose address is a given value. -/
def no_load_of (Δ : List (Nat × Instr)) (v : Val) : Prop :=
  ∀ blk r a, (blk, Instr.load r a) ∈ Δ → a ≠ v

/-- The well-formedness of one cg_place / cg_expr result: the builder only
appended the segment, the segment's loads and results are bounded, the
returned value mentions only defined registers, and no load in the segment
loads from the returned value. -/
def cg_value_ok (st st2 : Builder) (v : Val) (Δ : List (Nat × Instr)) : Prop :=
  st2.trace = st.trace ++ Δ ∧ loads_selfBounded Δ
    ∧ results_bounded Δ st2.nextReg
    ∧ Val.regsLt v st2.nextReg = true ∧ no_load_of Δ v

theorem Val.regsLt_mono : ∀ (v : Val) (n m : Nat),
    Val.regsLt v n = true → n ≤ m → Val.regsLt v m = true
  | .reg i, n, m, h, hnm => by
    simp [Val.regsLt] at h ⊢
    omega
  | .constInt _, _, _, _, _ => rfl
  | .constBool _, _, _, _, _ => rfl

theorem CgScope.wf_mono : ∀ (scope : CgScope) (n m : Nat),
    CgScope.wf scope n = true → n ≤ m → CgScope.wf scope m = true
  | [], _, _, _, _ => rfl
  | (_, w) :: rest, n, m, h, hnm => by
    rw [CgScope.wf] at h ⊢
    rw [Bool.and_eq_true] at h ⊢
    exact ⟨Val.regsLt_mono w n m h.1 hnm, CgScope.wf_mono rest n m h.2 hnm⟩

theorem CgScope.get_regsLt : ∀ (scope : CgScope) (x : String) (v : Val) (n : Nat),
    CgScope.wf scope n = true → CgScope.get scope x = some v →
    Val.regsLt v n = true
  | [], x, v, n, _, hg => by rw [CgScope.get] at hg; exact absurd hg (by simp)
  | (y, w) :: rest, x, v, n, hw, hg => by
    rw [CgScope.get] at hg
    rw [CgScope.wf, Bool.and_eq_true] at hw
    by_cases hxy : y = x
    · rw [if_pos hxy] at hg
      injection hg with hv
      exact hv ▸ hw.1
    · rw [if_neg hxy] at hg
      exact CgScope.get_regsLt rest x v n hw.2 hg

theorem loads_selfBounded_nil : loads_selfBounded [] := by
  intro blk r a hmem
  simp at hmem

theorem loads_selfBounded_append {Δ1 Δ2 : List (Nat × Instr)}
    (h1 : loads_selfBounded Δ1) (h2 : loads_selfBounded Δ2) :
    loads_selfBounded (Δ1 ++ Δ2) := by
  intro blk r a hmem
  rcases List.mem_append.mp hmem with h | h
  · exact h1 blk r a h
  · exact h2 blk r a h

theorem loads_selfBounded_singleton_load {blk r : Nat} {a : Val}
    (h : Val.regsLt a r = true) : loads_selfBounded [(blk, Instr.load r a)] := by
  intro blk2 r2 a2 hmem
  simp at hmem
  obtain ⟨-, h1, h2⟩ := hmem
  subst h1
  subst h2
  exact h

theorem loads_selfBounded_singleton_notLoad {blk : Nat} {i : Instr}
    (h : ∀ r a, i ≠ Instr.load r a) : loads_selfBounded [(blk, i)] := by
  intro blk2 r a hmem
  simp at hmem
  exact absurd hmem.2.symm (h r a)

theorem results_bounded_nil (hi : Nat) : results_bounded [] hi := by
  intro blk i r hmem _
  simp at hmem

theorem results_bounded_append {Δ1 Δ2 : List (Nat × Instr)} {hi : Nat}
    (h1 : results_bounded Δ1 hi) (h2 : results_bounded Δ2 hi) :
    results_bounded (Δ1 ++ Δ2) hi := by
  intro blk i r hmem hres
  rcases List.mem_append.mp hmem with h | h
  · exact h1 blk i r h hres
  · exact h2 blk i r h hres

theorem results_bounded_mono {Δ : List (Nat × Instr)} {hi hi2 : Nat}
    (h : results_bounded Δ hi) (hle : hi ≤ hi2) : results_bounded Δ hi2 := by
  intro blk i r hmem hres
  have := h blk i r hmem hres
  omega

theorem results_bounded_singleton {blk : Nat} {i : Instr} {hi : Nat}
    (h : ∀ r, Instr.result? i = some r → r < hi) :
    results_bounded [(blk, i)] hi := by
  intro blk2 i2 r hmem hres
  simp at hmem
  exact h r (hmem.2 ▸ hres)

theorem no_load_of_nil (v : Val) : no_load_of [] v := by
  intro blk r a hmem
  simp at hmem

theorem no_load_of_append {Δ1 Δ2 : List (Nat × Instr)} {v : Val}
    (h1 : no_load_of Δ1 v) (h2 : no_load_of Δ2 v) : no_load_of (Δ1 ++ Δ2) v := by
  intro blk r a hmem
  rcases List.mem_append.mp hmem with h | h
  · exact h1 blk r a h
  · exact h2 blk r a h

theorem no_load_of_singleton_notLoad {blk : Nat} {i : Instr} {v : Val}
    (h : ∀ r a, i ≠ Instr.load r a) : no_load_of [(blk, i)] v := by
  intro blk2 r a hmem
  simp at hmem
  exact absurd hmem.2.symm (h r a)

theorem no_load_of_singleton_load {blk r : Nat} {a v : Val}
    (h : a ≠ v) : no_load_of [(blk, Instr.load r a)] v := by
  intro blk2 r2 a2 hmem
  simp at hmem
  obtain ⟨-, -, h2⟩ := hmem
  rw [h2]
  exact h

/-- If a segment's loads are self-bounded and all its results are below hi,
then no load in it can have a register at or above hi as its address. -/
theorem no_load_of_freshReg {Δ : List (Nat × Instr)} {hi k : Nat}
    (hl : loads_selfBounded Δ) (hr : results_bounded Δ hi) (hle : hi ≤ k) :
    no_load_of Δ (Val.reg k) := by
  intro blk r a hmem heq
  have h1 := hl blk r a hmem
  have h2 := hr blk (Instr.load r a) r hmem rfl
  rw [heq] at h1
  simp [Val.regsLt] at h1
  omega

theorem place_one_le_sizeOf (p : Place) : 1 ≤ sizeOf p := by
  cases p
  simp_arith

theorem typedExpr_one_le_sizeOf (e : TypedExpr) : 1 ≤ sizeOf e := by
  cases e
  simp_arith

/-- A value bounded by a register counter is never that counter's register. -/
theorem ne_reg_of_regsLt {a : Val} {k : Nat} (h : Val.regsLt a k = true) :
    a ≠ Val.reg k := by
  intro heq
  rw [heq] at h
  simp [Val.regsLt] at h

/-- The load-freedom invariant of the place and expression code generators,
by strong induction on a size bound: under a well-formed scope, a successful
run only appends to the trace, keeps every load's address below the load's
own result register, keeps all result registers below the final counter,
returns a value mentioning only defined registers, and emits no load from
the returned value. -/
theorem cg_invariant (n : Nat) :
    (∀ (scope : CgScope) (bb : Nat) (p : Place) (st : Builder)
        (bb2 : Nat) (v : Val) (st2 : Builder),
      2 * sizeOf p ≤ n →
      CgScope.wf scope st.nextReg = true →
      cg_place scope bb p st = some (bb2, v, st2) →
      st.nextReg ≤ st2.nextReg ∧ ∃ Δ, cg_value_ok st st2 v Δ)
    ∧ (∀ (scope : CgScope) (bb : Nat) (e : TypedExpr) (st : Builder)
        (bb2 : Nat) (v : Val) (st2 : Builder),
      2 * sizeOf e ≤ n →
      CgScope.wf scope st.nextReg = true →
      cg_expr scope bb e st = some (bb2, v, st2) →
      st.nextReg ≤ st2.nextReg ∧ ∃ Δ, cg_value_ok st st2 v Δ)
    ∧ (∀ (scope : CgScope) (bb : Nat) (args : List TypedExpr) (st : Builder)
        (bb2 : Nat) (vs : List Val) (st2 : Builder),
      2 * sizeOf args ≤ n →
      CgScope.wf scope st.nextReg = true →
      cg_args scope bb args st = some (bb2, vs, st2) →
      st.nextReg ≤ st2.nextReg ∧ ∃ Δ, st2.trace = st.trace ++ Δ
        ∧ loads_selfBounded Δ ∧ results_bounded Δ st2.nextReg) := by
  induction n with
  | zero =>
    refine ⟨?_, ?_, ?_⟩ <;> intro scope bb x st bb2 v st2 hb
    · exact absurd hb (by have := place_one_le_sizeOf x; omega)
    · exact absurd hb (by have := typedExpr_one_le_sizeOf x; omega)
    · exact absurd hb (by have := list_one_le_sizeOf x; omega)
  | succ n ih =>
    obtain ⟨ihp, ihe, iha⟩ := ih
    refine ⟨?_, ?_, ?_⟩
    · -- cg_place
      intro scope bb p st bb2 v st2 hb hw h
      obtain ⟨it, kindSp⟩ := p
      obtain ⟨kind, sp⟩ := kindSp
      rw [cg_place.eq_def] at h
      cases kind
      case var x =>
        cases hg : CgScope.get scope x with
        | none => simp [hg] at h
        | some reg =>
          simp only [hg] at h
          simp only [Option.some.injEq, Prod.mk.injEq] at h
          obtain ⟨hbb, hv, hst⟩ := h
          subst hst
          refine ⟨le_rfl, [], by simp, loads_selfBounded_nil,
            results_bounded_nil _, ?_, no_load_of_nil _⟩
          exact CgScope.get_regsLt scope x v st.nextReg hw (hv ▸ hg)
      case deref x =>
        cases h1 : cg_expr scope bb x st with
        | none => simp [h1] at h
        | some res =>
          obtain ⟨bb1, v1, st1⟩ := res
          simp only [h1] at h
          simp only [Option.some.injEq, Prod.mk.injEq] at h
          obtain ⟨hbb, hv, hst⟩ := h
          rw [← hv, ← hst]
          exact ihe scope bb x st bb1 v1 st1 (by simp_arith at hb; omega) hw h1
      case index ptr idx =>
        cases h1 : cg_expr scope bb ptr st with
        | none => simp [h1] at h
        | some res1 =>
          obtain ⟨bb1, pv, st1⟩ := res1
          simp only [h1] at h
          cases h2 : cg_expr scope bb1 idx st1 with
          | none => simp [h2] at h
          | some res2 =>
            obtain ⟨bb2x, iv, st2x⟩ := res2
            simp only [h2] at h
            simp only [Option.some.injEq, Prod.mk.injEq] at h
            obtain ⟨hbb, hv, hst⟩ := h
            have hx1 := ihe scope bb ptr st bb1 pv st1
              (by simp_arith at hb; omega) hw h1
            have hw1 : CgScope.wf scope st1.nextReg = true :=
              CgScope.wf_mono scope st.nextReg st1.nextReg hw hx1.1
            have hx2 := ihe scope bb1 idx st1 bb2x iv st2x
              (by simp_arith at hb; omega) hw1 h2
            obtain ⟨hm1, Δ1, ht1, hl1, hr1, hv1, hn1⟩ := hx1
            obtain ⟨hm2, Δ2, ht2, hl2, hr2, hv2, hn2⟩ := hx2
            constructor
            · rw [← hst]
              simp [Builder.emit]
              omega
            · refine ⟨Δ1 ++ Δ2 ++ [(st2x.pos, Instr.gep st2x.nextReg it pv iv)],
                ?_, ?_, ?_, ?_, ?_⟩
              · rw [← hst]
                simp [Builder.emit, ht1, ht2]
              · exact loads_selfBounded_append (loads_selfBounded_append hl1 hl2)
                  (loads_selfBounded_singleton_notLoad
                    (fun r a hq => Instr.noConfusion hq))
              · rw [← hst]
                simp only [Builder.emit]
                refine results_bounded_append (results_bounded_append
                  (results_bounded_mono hr1 (by omega))
                  (results_bounded_mono hr2 (by omega)))
                  (results_bounded_singleton ?_)
                intro r hres
                simp [Instr.result?] at hres
                omega
              · rw [← hv, ← hst]
                simp [Val.regsLt, Builder.emit]
              · rw [← hv]
                refine no_load_of_append (no_load_of_append ?_ ?_)
                  (no_load_of_singleton_notLoad
                    (fun r a hq => Instr.noConfusion hq))
                · exact no_load_of_freshReg hl1 hr1 (by omega)
                · exact no_load_of_freshReg hl2 hr2 le_rfl
      case dot x prop =>
        cases hty : Place.inferred_type x
        case structTy contents =>
          simp only [hty] at h
          cases hidx : FieldList.idxOf? contents prop.value with
          | none => simp [hidx] at h
          | some prop_idx =>
            simp only [hidx] at h
            cases h1 : cg_place scope bb x st with
            | none => simp [h1] at h
            | some res =>
              obtain ⟨bb1, xv, st1⟩ := res
              simp only [h1] at h
              simp only [Option.some.injEq, Prod.mk.injEq] at h
              obtain ⟨hbb, hv, hst⟩ := h
              have hx := ihp scope bb x st bb1 xv st1
                (by simp_arith at hb; omega) hw h1
              obtain ⟨hm1, Δ1, ht1, hl1, hr1, hv1, hn1⟩ := hx
              constructor
              · rw [← hst]
                simp [Builder.emit]
                omega
              · refine ⟨Δ1 ++ [(st1.pos,
                  Instr.structGep st1.nextReg (.structTy contents) xv prop_idx)],
                  ?_, ?_, ?_, ?_, ?_⟩
                · rw [← hst]
                  simp [Builder.emit, ht1]
                · exact loads_selfBounded_append hl1
                    (loads_selfBounded_singleton_notLoad
                      (fun r a hq => Instr.noConfusion hq))
                · rw [← hst]
                  simp only [Builder.emit]
                  refine results_bounded_append
                    (results_bounded_mono hr1 (by omega))
                    (results_bounded_singleton ?_)
                  intro r hres
                  simp [Instr.result?] at hres
                  omega
                · rw [← hv, ← hst]
                  simp [Val.regsLt, Builder.emit]
                · rw [← hv]
                  exact no_load_of_append (no_load_of_freshReg hl1 hr1 le_rfl)
                    (no_load_of_singleton_notLoad
                      (fun r a hq => Instr.noConfusion hq))
        case unionTy fields =>
          simp only [hty] at h
          exact ihp scope bb x st bb2 v st2 (by simp_arith at hb; omega) hw h
        all_goals simp [hty] at h
    · -- cg_expr
      intro scope bb e st bb2 v st2 hb hw h
      obtain ⟨it, kindSp⟩ := e
      obtain ⟨kind, sp⟩ := kindSp
      rw [cg_expr.eq_def] at h
      cases kind
      case intLit m =>
        simp only [Option.some.injEq, Prod.mk.injEq] at h
        obtain ⟨hbb, hv, hst⟩ := h
        subst hst
        exact ⟨le_rfl, [], by simp, loads_selfBounded_nil,
          results_bounded_nil _, by rw [← hv]; rfl, no_load_of_nil _⟩
      case boolLit b =>
        simp only [Option.some.injEq, Prod.mk.injEq] at h
        obtain ⟨hbb, hv, hst⟩ := h
        subst hst
        exact ⟨le_rfl, [], by simp, loads_selfBounded_nil,
          results_bounded_nil _, by rw [← hv]; rfl, no_load_of_nil _⟩
      case placeValue pl =>
        cases h1 : cg_place scope bb pl st with
        | none => simp [h1] at h
        | some res =>
          obtain ⟨bb1, ptr, st1⟩ := res
          simp only [h1] at h
          simp only [Option.some.injEq, Prod.mk.injEq] at h
          obtain ⟨hbb, hv, hst⟩ := h
          have hx := ihp scope bb pl st bb1 ptr st1
            (by simp_arith at hb; omega) hw h1
          obtain ⟨hm1, Δ1, ht1, hl1, hr1, hv1, hn1⟩ := hx
          constructor
          · rw [← hst]
            simp [Builder.emit]
            omega
          · refine ⟨Δ1 ++ [(st1.pos, Instr.load st1.nextReg ptr)],
              ?_, ?_, ?_, ?_, ?_⟩
            · rw [← hst]
              simp [Builder.emit, ht1]
            · exact loads_selfBounded_append hl1
                (loads_selfBounded_singleton_load hv1)
            · rw [← hst]
              simp only [Builder.emit]
              refine results_bounded_append
                (results_bounded_mono hr1 (by omega))
                (results_bounded_singleton ?_)
              intro r hres
              simp [Instr.result?] at hres
              omega
            · rw [← hv, ← hst]
              simp [Val.regsLt, Builder.emit]
            · rw [← hv]
              exact no_load_of_append (no_load_of_freshReg hl1 hr1 le_rfl)
                (no_load_of_singleton_load (ne_reg_of_regsLt hv1))
      case binary op lhs rhs =>
        cases h1 : cg_expr scope bb lhs st with
        | none => simp [h1] at h
        | some res1 =>
          obtain ⟨bb1, lv, st1⟩ := res1
          simp only [h1] at h
          cases h2 : cg_expr scope bb1 rhs st1 with
          | none => simp [h2] at h
          | some res2 =>
            obtain ⟨bb2x, rv, st2x⟩ := res2
            simp only [h2] at h
            simp only [Option.some.injEq, Prod.mk.injEq] at h
            obtain ⟨hbb, hv, hst⟩ := h
            have hx1 := ihe scope bb lhs st bb1 lv st1
              (by simp_arith at hb; omega) hw h1
            have hw1 : CgScope.wf scope st1.nextReg = true :=
              CgScope.wf_mono scope st.nextReg st1.nextReg hw hx1.1
            have hx2 := ihe scope bb1 rhs st1 bb2x rv st2x
              (by simp_arith at hb; omega) hw1 h2
            obtain ⟨hm1, Δ1, ht1, hl1, hr1, hv1, hn1⟩ := hx1
            obtain ⟨hm2, Δ2, ht2, hl2, hr2, hv2, hn2⟩ := hx2
            constructor
            · rw [← hst]
              simp [Builder.emit]
              omega
            · refine ⟨Δ1 ++ Δ2 ++ [(st2x.pos, Instr.binop st2x.nextReg op lv rv)],
                ?_, ?_, ?_, ?_, ?_⟩
              · rw [← hst]
                simp [Builder.emit, ht1, ht2]
              · exact loads_selfBounded_append (loads_selfBounded_append hl1 hl2)
                  (loads_selfBounded_singleton_notLoad
                    (fun r a hq => Instr.noConfusion hq))
              · rw [← hst]
                simp only [Builder.emit]
                refine results_bounded_append (results_bounded_append
                  (results_bounded_mono hr1 (by omega))
                  (results_bounded_mono hr2 (by omega)))
                  (results_bounded_singleton ?_)
                intro r hres
                simp [Instr.result?] at hres
                omega
              · rw [← hv, ← hst]
                simp [Val.regsLt, Builder.emit]
              · rw [← hv]
                refine no_load_of_append (no_load_of_append ?_ ?_)
                  (no_load_of_singleton_notLoad
                    (fun r a hq => Instr.noConfusion hq))
                · exact no_load_of_freshReg hl1 hr1 (by omega)
                · exact no_load_of_freshReg hl2 hr2 le_rfl
      case call callee args =>
        cases h1 : cg_args scope bb args st with
        | none => simp [h1] at h
        | some res1 =>
          obtain ⟨bb1, vals, st1⟩ := res1
          simp only [h1] at h
          simp only [Option.some.injEq, Prod.mk.injEq] at h
          obtain ⟨hbb, hv, hst⟩ := h
          have hx1 := iha scope bb args st bb1 vals st1
            (by simp_arith at hb; omega) hw h1
          obtain ⟨hm1, Δ1, ht1, hl1, hr1⟩ := hx1
          constructor
          · rw [← hst]
            simp [Builder.emit]
            omega
          · refine ⟨Δ1 ++ [(st1.pos, Instr.callOp st1.nextReg callee vals)],
              ?_, ?_, ?_, ?_, ?_⟩
            · rw [← hst]
              simp [Builder.emit, ht1]
            · exact loads_selfBounded_append hl1
                (loads_selfBounded_singleton_notLoad
                  (fun r a hq => Instr.noConfusion hq))
            · rw [← hst]
              simp only [Builder.emit]
              refine results_bounded_append
                (results_bounded_mono hr1 (by omega))
                (results_bounded_singleton ?_)
              intro r hres
              simp [Instr.result?] at hres
              omega
            · rw [← hv, ← hst]
              simp [Val.regsLt, Builder.emit]
            · rw [← hv]
              exact no_load_of_append (no_load_of_freshReg hl1 hr1 le_rfl)
                (no_load_of_singleton_notLoad
                  (fun r a hq => Instr.noConfusion hq))
      case addressOf pl =>
        exact ihp scope bb pl st bb2 v st2 (by simp_arith at hb; omega) hw h
      case cast inner target =>
        cases h1 : cg_expr scope bb inner st with
        | none => simp [h1] at h
        | some res =>
          obtain ⟨bb1, v1, st1⟩ := res
          simp only [h1] at h
          simp only [Option.some.injEq, Prod.mk.injEq] at h
          obtain ⟨hbb, hv, hst⟩ := h
          have hx := ihe scope bb inner st bb1 v1 st1
            (by simp_arith at hb; omega) hw h1
          obtain ⟨hm1, Δ1, ht1, hl1, hr1, hv1, hn1⟩ := hx
          constructor
          · rw [← hst]
            simp [Builder.emit]
            omega
          · refine ⟨Δ1 ++ [(st1.pos, Instr.castOp st1.nextReg v1 target)],
              ?_, ?_, ?_, ?_, ?_⟩
            · rw [← hst]
              simp [Builder.emit, ht1]
            · exact loads_selfBounded_append hl1
                (loads_selfBounded_singleton_notLoad
                  (fun r a hq => Instr.noConfusion hq))
            · rw [← hst]
              simp only [Builder.emit]
              refine results_bounded_append
                (results_bounded_mono hr1 (by omega))
                (results_bounded_singleton ?_)
              intro r hres
              simp [Instr.result?] at hres
              omega
            · rw [← hv, ← hst]
              simp [Val.regsLt, Builder.emit]
            · rw [← hv]
              exact no_load_of_append (no_load_of_freshReg hl1 hr1 le_rfl)
                (no_load_of_singleton_notLoad
                  (fun r a hq => Instr.noConfusion hq))
    · -- cg_args
      intro scope bb args st bb2 vs st2 hb hw h
      cases args with
      | nil =>
        rw [cg_args] at h
        simp only [Option.some.injEq, Prod.mk.injEq] at h
        obtain ⟨hbb, hv, hst⟩ := h
        subst hst
        exact ⟨le_rfl, [], by simp, loads_selfBounded_nil, results_bounded_nil _⟩
      | cons a rest =>
        rw [cg_args] at h
        cases h1 : cg_expr scope bb a st with
        | none => simp [h1] at h
        | some res1 =>
          obtain ⟨bb1, v1, st1⟩ := res1
          simp only [h1] at h
          cases h2 : cg_args scope bb1 rest st1 with
          | none => simp [h2] at h
          | some res2 =>
            obtain ⟨bb2x, vs1, st2x⟩ := res2
            simp only [h2] at h
            simp only [Option.some.injEq, Prod.mk.injEq] at h
            obtain ⟨hbb, hv, hst⟩ := h
            subst hst
            have hx1 := ihe scope bb a st bb1 v1 st1
              (by simp_arith at hb; omega) hw h1
            have hw1 : CgScope.wf scope st1.nextReg = true :=
              CgScope.wf_mono scope st.nextReg st1.nextReg hw hx1.1
            have hx2 := iha scope bb1 rest st1 bb2x vs1 st2x
              (by simp_arith at hb; omega) hw1 h2
            obtain ⟨hm1, Δ1, ht1, hl1, hr1, hv1, hn1⟩ := hx1
            obtain ⟨hm2, Δ2, ht2, hl2, hr2⟩ := hx2
            refine ⟨by omega, Δ1 ++ Δ2, ?_, loads_selfBounded_append hl1 hl2,
              results_bounded_append (results_bounded_mono hr1 (by omega)) hr2⟩
            rw [ht2, ht1]
            simp

/-- C6: for every Place p, under a well-formed codegen scope a successful
cg_place only appends instructions to the trace, and the appended segment
contains no load whose address is the returned pointer: cg_place produces
the address of the l-value without ever loading the value stored at it
(place.rs lines 23 to 110). -/
theorem cg_place_no_load_of_result
    (scope : CgScope) (bb : Nat) (p : Place) (st : Builder)
    (bb2 : Nat) (v : Val) (st2 : Builder)
    (hw : CgScope.wf scope st.nextReg = true)
    (h : cg_place scope bb p st = some (bb2, v, st2)) :
    ∃ Δ, st2.trace = st.trace ++ Δ
      ∧ ∀ blk r a, (blk, Instr.load r a) ∈ Δ → a ≠ v := by
  obtain ⟨-, Δ, ht, -, -, -, hn⟩ :=
    (cg_invariant (2 * sizeOf p)).1 scope bb p st bb2 v st2 le_rfl hw h
  exact ⟨Δ, ht, hn⟩

/-- Witness for C6: lowering the place *x (for a variable x whose stack slot
holds a pointer) loads the pointer from the slot but never loads from the
returned address itself. -/
theorem cg_place_no_load_of_result_witness :
    ∃ Δ, (⟨2, 0, 0, [(0, Instr.load 1 (Val.reg 0))]⟩ : Builder).trace
        = (⟨1, 0, 0, []⟩ : Builder).trace ++ Δ
      ∧ ∀ blk r a, (blk, Instr.load r a) ∈ Δ → a ≠ Val.reg 1 :=
  cg_place_no_load_of_result [("x", Val.reg 0)] 0
    (Place.mk .i32 ⟨.deref (.mk (.pointer .i32)
      ⟨.placeValue (.mk (.pointer .i32) ⟨.var "x", ⟨0, 1, "f"⟩⟩), ⟨0, 2, "f"⟩⟩),
      ⟨0, 3, "f"⟩⟩)
    ⟨1, 0, 0, []⟩ 0 (Val.reg 1) ⟨2, 0, 0, [(0, Instr.load 1 (Val.reg 0))]⟩
    (by rfl)
    (by simp [cg_place, cg_expr, CgScope.get, Builder.emit])

/-- C7: for a field access Dot(pl, f): when pl has a union type, cg_place
returns exactly the result of cg_place(pl) (same pointer, same builder: no
GEP and no load are emitted for the field access); when pl has a struct
type whose field list locates f at ordinal position idx, cg_place lowers pl
and then emits exactly one struct GEP with field index idx and a fresh
result register (place.rs lines 75 to 108). -/
theorem cg_place_dot_union_struct
    (scope : CgScope) (bb : Nat) (st : Builder) (pl : Place)
    (prop : Spanned String) (τ : Ty) (sp : Span) :
    (∀ fields, Place.inferred_type pl = .unionTy fields →
      cg_place scope bb (Place.mk τ ⟨.dot pl prop, sp⟩) st
        = cg_place scope bb pl st)
    ∧ (∀ fields idx, Place.inferred_type pl = .structTy fields →
        FieldList.idxOf? fields prop.value = some idx →
        cg_place scope bb (Place.mk τ ⟨.dot pl prop, sp⟩) st
          = match cg_place scope bb pl st with
            | none => none
            | some (bb1, xv, st1) =>
              some (bb1, Val.reg st1.nextReg,
                Builder.emit { st1 with nextReg := st1.nextReg + 1 }
                  (.structGep st1.nextReg (.structTy fields) xv idx))) := by
  constructor
  · intro fields hty
    rw [cg_place]
    simp only [hty]
  · intro fields idx hty hidx
    rw [cg_place]
    simp only [hty, hidx]

/-- Witness for C7: a union field access returns the union's address
unchanged, and a struct field access to the second field emits a struct GEP
with index 1. -/
theorem cg_place_dot_union_struct_witness :
    (cg_place [("u", Val.reg 0)] 0
        (Place.mk .i32 ⟨.dot
          (Place.mk (.unionTy (.cons "a" .i32 .nil)) ⟨.var "u", ⟨0, 1, "f"⟩⟩)
          ⟨"a", ⟨2, 3, "f"⟩⟩, ⟨0, 3, "f"⟩⟩) ⟨1, 0, 0, []⟩
      = cg_place [("u", Val.reg 0)] 0
          (Place.mk (.unionTy (.cons "a" .i32 .nil)) ⟨.var "u", ⟨0, 1, "f"⟩⟩)
          ⟨1, 0, 0, []⟩)
    ∧ (cg_place [("s", Val.reg 0)] 0
        (Place.mk .i32 ⟨.dot
          (Place.mk (.structTy (.cons "a" .i32 (.cons "b" .i32 .nil)))
            ⟨.var "s", ⟨0, 1, "f"⟩⟩)
          ⟨"b", ⟨2, 3, "f"⟩⟩, ⟨0, 3, "f"⟩⟩) ⟨1, 0, 0, []⟩
      = match cg_place [("s", Val.reg 0)] 0
            (Place.mk (.structTy (.cons "a" .i32 (.cons "b" .i32 .nil)))
              ⟨.var "s", ⟨0, 1, "f"⟩⟩) ⟨1, 0, 0, []⟩ with
          | none => none
          | some (bb1, xv, st1) =>
            some (bb1, Val.reg st1.nextReg,
              Builder.emit { st1 with nextReg := st1.nextReg + 1 }
                (.structGep st1.nextReg
                  (.structTy (.cons "a" .i32 (.cons "b" .i32 .nil))) xv 1))) :=
  ⟨(cg_place_dot_union_struct [("u", Val.reg 0)] 0 ⟨1, 0, 0, []⟩
      (Place.mk (.unionTy (.cons "a" .i32 .nil)) ⟨.var "u", ⟨0, 1, "f"⟩⟩)
      ⟨"a", ⟨2, 3, "f"⟩⟩ .i32 ⟨0, 3, "f"⟩).1 (.cons "a" .i32 .nil) rfl,
   (cg_place_dot_union_struct [("s", Val.reg 0)] 0 ⟨1, 0, 0, []⟩
      (Place.mk (.structTy (.cons "a" .i32 (.cons "b" .i32 .nil)))
        ⟨.var "s", ⟨0, 1, "f"⟩⟩)
      ⟨"b", ⟨2, 3, "f"⟩⟩ .i32 ⟨0, 3, "f"⟩).2
      (.cons "a" .i32 (.cons "b" .i32 .nil)) 1 rfl (by rfl)⟩

/-! ## Loop wiring -/

/-- cg_while_stmt with the block bookkeeping resolved: the header is
st.nextBlock, the body st.nextBlock + 1, the exit st.nextBlock + 2. -/
theorem cg_while_stmt_eq (scope : CgScope) (cond : TypedExpr)
    (body : Spanned (List TypedStmt)) (st : Builder) :
    cg_while_stmt scope cond body st =
      match cg_expr scope st.nextBlock cond
          (Builder.mk st.nextReg (st.nextBlock + 3) st.nextBlock
            (st.trace ++ [(st.pos, Instr.br st.nextBlock)])) with
      | none => none
      | some (_h2, condV, st4) =>
        match cg_block scope (st.nextBlock + 1) body
            (some (LoopBreakaway.mk (st.nextBlock + 2) st.nextBlock))
            ((st4.emit (Instr.condBr condV (st.nextBlock + 1) (st.nextBlock + 2))).position_at_end
              (st.nextBlock + 1)) with
        | none => none
        | some (some _, st5) =>
          some (st.nextBlock + 2,
            (st5.emit (Instr.br st.nextBlock)).position_at_end (st.nextBlock + 2))
        | some (none, st5) =>
          some (st.nextBlock + 2, st5.position_at_end (st.nextBlock + 2)) := by
  rw [cg_while_stmt]
  rfl

/-- cg_do_while_stmt with the block bookkeeping resolved: the body is
st.nextBlock, the header st.nextBlock + 1, the exit st.nextBlock + 2. -/
theorem cg_do_while_stmt_eq (scope : CgScope) (body : Spanned (List TypedStmt))
    (cond : TypedExpr) (st : Builder) :
    cg_do_while_stmt scope body cond st =
      match cg_block scope st.nextBlock body
          (some (LoopBreakaway.mk (st.nextBlock + 2) (st.nextBlock + 1)))
          (Builder.mk st.nextReg (st.nextBlock + 3) st.nextBlock
            (st.trace ++ [(st.pos, Instr.br st.nextBlock)])) with
      | none => none
      | some (some _, st4) =>
        match cg_expr scope (st.nextBlock + 1) cond
            ((st4.emit (Instr.br (st.nextBlock + 1))).position_at_end (st.nextBlock + 1)) with
        | none => none
        | some (_h2, condV, st5) =>
          some (st.nextBlock + 2,
            (st5.emit (Instr.condBr condV st.nextBlock (st.nextBlock + 2))).position_at_end
              (st.nextBlock + 2))
      | some (none, st4) =>
        match cg_expr scope (st.nextBlock + 1) cond
            (st4.position_at_end (st.nextBlock + 1)) with
        | none => none
        | some (_h2, condV, st5) =>
          some (st.nextBlock + 2,
            (st5.emit (Instr.condBr condV st.nextBlock (st.nextBlock + 2))).position_at_end
              (st.nextBlock + 2)) := by
  rw [cg_do_while_stmt]
  rfl

/-- cg_for_stmt with the block bookkeeping resolved: after the init phase
ending in builder st1, the header is st1.nextBlock, the body
st1.nextBlock + 1, the latch st1.nextBlock + 2, the exit st1.nextBlock + 3. -/
theorem cg_for_stmt_eq (scope : CgScope) (bb : Nat)
    (init : Option (List (Spanned TypedLetDeclaration)))
    (cond : Option TypedExpr) (post : Option TypedExpr)
    (body : Spanned (List TypedStmt)) (st : Builder) :
    cg_for_stmt scope bb init cond post body st =
      match cg_for_init scope bb init st with
      | none => none
      | some (_bb1, scope1, st1) =>
        match cg_for_header scope1 st1.nextBlock (st1.nextBlock + 1)
            (st1.nextBlock + 3) cond
            (Builder.mk st1.nextReg (st1.nextBlock + 4) st1.pos st1.trace) with
        | none => none
        | some st6 =>
          match cg_block scope1 (st1.nextBlock + 1) body
              (some (LoopBreakaway.mk (st1.nextBlock + 3) (st1.nextBlock + 2)))
              (st6.position_at_end (st1.nextBlock + 1)) with
          | none => none
          | some (some _, st7) =>
            cg_for_latch scope1 (st1.nextBlock + 2) st1.nextBlock
              (st1.nextBlock + 3) post (st7.emit (Instr.br (st1.nextBlock + 2)))
          | some (none, st7) =>
            cg_for_latch scope1 (st1.nextBlock + 2) st1.nextBlock
              (st1.nextBlock + 3) post st7 := by
  rw [cg_for_stmt]
  rfl

/-- A successful latch phase returns the exit block with the builder
positioned at it. -/
theorem cg_for_latch_shape (scope : CgScope) (latch header exit : Nat)
    (post : Option TypedExpr) (st : Builder) (res : Nat × Builder)
    (h : cg_for_latch scope latch header exit post st = some res) :
    res.1 = exit ∧ res.2.pos = exit := by
  cases post with
  | none =>
    rw [cg_for_latch] at h
    simp only [Option.some.injEq] at h
    rw [← h]
    exact ⟨rfl, rfl⟩
  | some p =>
    rw [cg_for_latch] at h
    cases hc : cg_expr scope latch p (st.position_at_end latch) with
    | none => simp [hc] at h
    | some resC =>
      obtain ⟨b, v, st1⟩ := resC
      simp only [hc] at h
      simp only [Option.some.injEq] at h
      rw [← h]
      exact ⟨rfl, rfl⟩

/-- C8: the LoopBreakaway wiring of the three loop forms. A successful
cg_while_stmt lowered the body with on_break = exit and on_continue =
header, branched fall-through bodies to the header, returned the exit and
left the builder positioned at the exit; cg_do_while_stmt likewise with
on_break = exit and on_continue = header (fall-through branches to the
header, which tests the condition); cg_for_stmt lowered the body with
on_break = exit and on_continue = latch, branched fall-through bodies to
the latch, ran post in the latch before branching to the header, returned
the exit and left the builder positioned at the exit (loops.rs lines
85 to 118, 159 to 180 and 213 to 243). -/
theorem cg_loops_breakaway_wiring :
    (∀ (scope : CgScope) (cond : TypedExpr) (body : Spanned (List TypedStmt))
        (st : Builder) (ret : Nat) (st' : Builder),
      cg_while_stmt scope cond body st = some (ret, st') →
      ∃ hb2 condV stC fall stB,
        cg_expr scope st.nextBlock cond
            (Builder.mk st.nextReg (st.nextBlock + 3) st.nextBlock
              (st.trace ++ [(st.pos, Instr.br st.nextBlock)]))
          = some (hb2, condV, stC)
        ∧ cg_block scope (st.nextBlock + 1) body
            (some (LoopBreakaway.mk (st.nextBlock + 2) st.nextBlock))
            ((stC.emit (Instr.condBr condV (st.nextBlock + 1) (st.nextBlock + 2))).position_at_end
              (st.nextBlock + 1))
          = some (fall, stB)
        ∧ ret = st.nextBlock + 2
        ∧ st' = (match fall with
                 | some _ => stB.emit (Instr.br st.nextBlock)
                 | none => stB).position_at_end (st.nextBlock + 2)
        ∧ st'.pos = st.nextBlock + 2)
    ∧ (∀ (scope : CgScope) (body : Spanned (List TypedStmt)) (cond : TypedExpr)
        (st : Builder) (ret : Nat) (st' : Builder),
      cg_do_while_stmt scope body cond st = some (ret, st') →
      ∃ fall stB hb2 condV stC,
        cg_block scope st.nextBlock body
            (some (LoopBreakaway.mk (st.nextBlock + 2) (st.nextBlock + 1)))
            (Builder.mk st.nextReg (st.nextBlock + 3) st.nextBlock
              (st.trace ++ [(st.pos, Instr.br st.nextBlock)]))
          = some (fall, stB)
        ∧ cg_expr scope (st.nextBlock + 1) cond
            ((match fall with
              | some _ => stB.emit (Instr.br (st.nextBlock + 1))
              | none => stB).position_at_end (st.nextBlock + 1))
          = some (hb2, condV, stC)
        ∧ ret = st.nextBlock + 2
        ∧ st' = (stC.emit (Instr.condBr condV st.nextBlock (st.nextBlock + 2))).position_at_end
            (st.nextBlock + 2)
        ∧ st'.pos = st.nextBlock + 2)
    ∧ (∀ (scope : CgScope) (bb : Nat)
        (init : Option (List (Spanned TypedLetDeclaration)))
        (cond : Option TypedExpr) (post : Option TypedExpr)
        (body : Spanned (List TypedStmt)) (st : Builder) (ret : Nat) (st' : Builder),
      cg_for_stmt scope bb init cond post body st = some (ret, st') →
      ∃ bbI scope1 stI stH fall stB,
        cg_for_init scope bb init st = some (bbI, scope1, stI)
        ∧ cg_for_header scope1 stI.nextBlock (stI.nextBlock + 1)
            (stI.nextBlock + 3) cond
            (Builder.mk stI.nextReg (stI.nextBlock + 4) stI.pos stI.trace)
          = some stH
        ∧ cg_block scope1 (stI.nextBlock + 1) body
            (some (LoopBreakaway.mk (stI.nextBlock + 3) (stI.nextBlock + 2)))
            (stH.position_at_end (stI.nextBlock + 1))
          = some (fall, stB)
        ∧ cg_for_latch scope1 (stI.nextBlock + 2) stI.nextBlock
            (stI.nextBlock + 3) post
            (match fall with
             | some _ => stB.emit (Instr.br (stI.nextBlock + 2))
             | none => stB)
          = some (ret, st')
        ∧ ret = stI.nextBlock + 3
        ∧ st'.pos = stI.nextBlock + 3) := by
  refine ⟨?_, ?_, ?_⟩
  · intro scope cond body st ret st' h
    rw [cg_while_stmt_eq] at h
    cases hc : cg_expr scope st.nextBlock cond
        (Builder.mk st.nextReg (st.nextBlock + 3) st.nextBlock
          (st.trace ++ [(st.pos, Instr.br st.nextBlock)])) with
    | none => simp [hc] at h
    | some resC =>
      obtain ⟨hb2, condV, stC⟩ := resC
      simp only [hc] at h
      cases hbk : cg_block scope (st.nextBlock + 1) body
          (some (LoopBreakaway.mk (st.nextBlock + 2) st.nextBlock))
          ((stC.emit (Instr.condBr condV (st.nextBlock + 1) (st.nextBlock + 2))).position_at_end
            (st.nextBlock + 1)) with
      | none => simp [hbk] at h
      | some resB =>
        obtain ⟨fall, stB⟩ := resB
        simp only [hbk] at h
        cases fall with
        | some fb =>
          simp only [Option.some.injEq, Prod.mk.injEq] at h
          obtain ⟨hret, hst⟩ := h
          refine ⟨hb2, condV, stC, some fb, stB, rfl, hbk, hret.symm, ?_, ?_⟩
          · rw [← hst]
          · rw [← hst]
            rfl
        | none =>
          simp only [Option.some.injEq, Prod.mk.injEq] at h
          obtain ⟨hret, hst⟩ := h
          refine ⟨hb2, condV, stC, none, stB, rfl, hbk, hret.symm, ?_, ?_⟩
          · rw [← hst]
          · rw [← hst]
            rfl
  · intro scope body cond st ret st' h
    rw [cg_do_while_stmt_eq] at h
    cases hbk : cg_block scope st.nextBlock body
        (some (LoopBreakaway.mk (st.nextBlock + 2) (st.nextBlock + 1)))
        (Builder.mk st.nextReg (st.nextBlock + 3) st.nextBlock
          (st.trace ++ [(st.pos, Instr.br st.nextBlock)])) with
    | none => simp [hbk] at h
    | some resB =>
      obtain ⟨fall, stB⟩ := resB
      simp only [hbk] at h
      cases fall with
      | some fb =>
        cases hc : cg_expr scope (st.nextBlock + 1) cond
            ((stB.emit (Instr.br (st.nextBlock + 1))).position_at_end (st.nextBlock + 1)) with
        | none => simp [hc] at h
        | some resC =>
          obtain ⟨hb2, condV, stC⟩ := resC
          simp only [hc] at h
          simp only [Option.some.injEq, Prod.mk.injEq] at h
          obtain ⟨hret, hst⟩ := h
          refine ⟨some fb, stB, hb2, condV, stC, rfl, hc, hret.symm, ?_, ?_⟩
          · rw [← hst]
          · rw [← hst]
            rfl
      | none =>
        cases hc : cg_expr scope (st.nextBlock + 1) cond
            (stB.position_at_end (st.nextBlock + 1)) with
        | none => simp [hc] at h
        | some resC =>
          obtain ⟨hb2, condV, stC⟩ := resC
          simp only [hc] at h
          simp only [Option.some.injEq, Prod.mk.injEq] at h
          obtain ⟨hret, hst⟩ := h
          refine ⟨none, stB, hb2, condV, stC, rfl, hc, hret.symm, ?_, ?_⟩
          · rw [← hst]
          · rw [← hst]
            rfl
  · intro scope bb init cond post body st ret st' h
    rw [cg_for_stmt_eq] at h
    cases hi : cg_for_init scope bb init st with
    | none => simp [hi] at h
    | some resI =>
      obtain ⟨bbI, scope1, stI⟩ := resI
      simp only [hi] at h
      cases hh : cg_for_header scope1 stI.nextBlock (stI.nextBlock + 1)
          (stI.nextBlock + 3) cond
          (Builder.mk stI.nextReg (stI.nextBlock + 4) stI.pos stI.trace) with
      | none => simp [hh] at h
      | some stH =>
        simp only [hh] at h
        cases hbk : cg_block scope1 (stI.nextBlock + 1) body
            (some (LoopBreakaway.mk (stI.nextBlock + 3) (stI.nextBlock + 2)))
            (stH.position_at_end (stI.nextBlock + 1)) with
        | none => simp [hbk] at h
        | some resB =>
          obtain ⟨fall, stB⟩ := resB
          simp only [hbk] at h
          cases fall with
          | some fb =>
            have hs := cg_for_latch_shape scope1 (stI.nextBlock + 2) stI.nextBlock
              (stI.nextBlock + 3) post (stB.emit (Instr.br (stI.nextBlock + 2)))
              (ret, st') h
            exact ⟨bbI, scope1, stI, stH, some fb, stB, rfl, hh, hbk, h, hs.1, hs.2⟩
          | none =>
            have hs := cg_for_latch_shape scope1 (stI.nextBlock + 2) stI.nextBlock
              (stI.nextBlock + 3) post stB (ret, st') h
            exact ⟨bbI, scope1, stI, stH, none, stB, rfl, hh, hbk, h, hs.1, hs.2⟩

/-- Witness for C8: a while (true) loop with an empty body, lowered from a
fresh builder: the header is block 0, the body block 1, the exit block 2,
the body was lowered with on_break = 2 and on_continue = 0, the fall-through
body branched to the header, and the builder ends positioned at the exit. -/
theorem cg_loops_breakaway_wiring_witness :
    ∃ hb2 condV stC fall stB,
      cg_expr [] 0 (TypedExpr.mk .bool ⟨.boolLit true, ⟨0, 1, "f"⟩⟩)
          (Builder.mk 0 3 0 [(0, Instr.br 0)])
        = some (hb2, condV, stC)
      ∧ cg_block [] 1 ⟨[], ⟨0, 2, "f"⟩⟩ (some (LoopBreakaway.mk 2 0))
          ((stC.emit (Instr.condBr condV 1 2)).position_at_end 1)
        = some (fall, stB)
      ∧ (2 : Nat) = 2
      ∧ (⟨0, 3, 2, [(0, Instr.br 0), (0, Instr.condBr (Val.constBool true) 1 2),
            (1, Instr.br 0)]⟩ : Builder)
          = (match fall with
             | some _ => stB.emit (Instr.br 0)
             | none => stB).position_at_end 2
      ∧ (⟨0, 3, 2, [(0, Instr.br 0), (0, Instr.condBr (Val.constBool true) 1 2),
            (1, Instr.br 0)]⟩ : Builder).pos = 2 :=
  cg_loops_breakaway_wiring.1 [] (TypedExpr.mk .bool ⟨.boolLit true, ⟨0, 1, "f"⟩⟩)
    ⟨[], ⟨0, 2, "f"⟩⟩ ⟨0, 0, 0, []⟩ 2
    ⟨0, 3, 2, [(0, Instr.br 0), (0, Instr.condBr (Val.constBool true) 1 2),
      (1, Instr.br 0)]⟩
    (by simp [cg_while_stmt, cg_expr, cg_block, cg_stmts,
      Builder.append_basic_block, Builder.emit, Builder.position_at_end])

end Zrc
